import Mathlib

/-!
Verification development for the index-resolution core of `cf/domain.py`
(`Domain._indices`, together with the axis-cyclicity setter `Domain.cyclic`
and the construct-axis reordering performed by `Domain.transpose`).

The Python source is shallowly embedded: every control-flow decision,
index computation and error raise of `_indices` is translated into
executable Lean definitions.  The numeric work that the source delegates
to external collaborators (element-wise `Query` evaluation on a
construct's `Data`, the dry-run `anchor` roll computation, the cyclic
slicing of a `Data` object, the matplotlib point-in-polygon test and the
`_create_auxiliary_mask_component` builder of `Data`) is modelled by
oracle function fields of `DomainModel` / by recording the arguments the
source passes to the collaborator; everything the source itself computes
is computed here.
-/

/-- Axis identifiers (construct keys of domain axis constructs). -/
abbrev AxisId := String

/-- Identity strings supplied as keyword names to `_indices`. -/
abbrev Identity := String

/-- A Python `slice(start, stop, step)` literal; `none` is Python `None`.
`slice(None)` is `⟨none, none, none⟩`. -/
structure Slice where
  start : Option Int
  stop : Option Int
  step : Option Int
deriving DecidableEq, Repr

/-- A per-axis index as produced by `_indices`: a slice, an integer
sequence, or a boolean selection array. -/
inductive Index where
  | slice (s : Slice)
  | ints (xs : List Int)
  | bools (bs : List Bool)
deriving DecidableEq, Repr

/-- The unrestricted index `slice(None)` used to initialise every axis slot. -/
def Index.full : Index := Index.slice ⟨none, none, none⟩

/-- Operator tags of `Query` condition objects. -/
inductive QueryOp where
  | eq
  | lt
  | le
  | gt
  | ge
  | wi
  | wo
  | containsOp
  | other
deriving DecidableEq, Repr

/-- A `Query` condition: an operator and up to two operand values
(`value.value[0]`, `value.value[1]` for range queries). -/
structure Query where
  op : QueryOp
  val0 : Int
  val1 : Int
deriving DecidableEq, Repr

/-- A condition supplied for one identity: either a literal index
expression (`list`, boolean list, `tuple`/`numpy` array are folded into
the integer/boolean list cases, or a `slice`), a `Query`, or a plain
scalar value compared element-wise. -/
inductive Cond where
  | litList (xs : List Int)
  | litBools (bs : List Bool)
  | litSlice (s : Slice)
  | query (q : Query)
  | scalar (v : Int)
deriving DecidableEq, Repr

/-- `isinstance(value, (list, slice, tuple, numpy_ndarray))`: the guard of
1-d CASE 1 in `_indices`. -/
def Cond.isExplicitIndex : Cond → Bool
  | .litList _ => true
  | .litBools _ => true
  | .litSlice _ => true
  | _ => false

/-- A metadata construct with data, as the resolver reads it: its
identity, the ordered domain axes its data spans, its construct type,
whether its 1-d data is increasing, its size, its period (for cyclic
dimension coordinates) and whether it carries bounds. -/
structure Construct where
  identity : Identity
  axes : List AxisId
  constructType : String
  increasing : Bool
  size : Nat
  period : Option Int
  hasBounds : Bool
deriving DecidableEq, Repr

/-- Error kinds raised by the embedded code, mirroring the Python
exception classes. -/
inductive Err where
  | valueError (msg : String)
  | typeError (msg : String)
  | importError (msg : String)
  | nameError (msg : String)
deriving DecidableEq, Repr

/-- The arguments `_indices` passes to the external
`Data._create_auxiliary_mask_component(mask_shape, ind, compress)`
builder; the mask itself is built by that external collaborator. -/
structure Mask where
  shape : List (Option Nat)
  ind : List (List Nat)
  compress : Bool
deriving DecidableEq, Repr

/-- The value returned by `_indices`: a plain tuple of per-axis indices,
or the tagged form whose first element is the literal string `"mask"` and
whose second element is a list of auxiliary masks. -/
inductive ResolveResult where
  | plain (ixs : List Index)
  | masked (masks : List Mask) (ixs : List Index)
deriving DecidableEq, Repr

/-- The domain as the resolver reads it.  The function fields are the
external collaborators: `anchorRoll axis v` is
`self.anchor(axis, v, dry_run=True)['roll']`, `anchorRollFlip axis v` is
`self.flip(axis).anchor(axis, v, dry_run=True)['roll']`, `match1d key
cond` is the boolean array `(value == construct)` for a 1-d construct,
`matchNd keys conds` is the tuple of matched-position rows
`numpy.where(item_match)` for an N-d group after transposition and
element-wise AND, `containsDelete keys conds` is the list of initially
matched cells whose bounds polygon does not contain the point, and
`cyclicSliceSelect n (start, stop)` is the wrap-aware slice of
`Data(range(n))` with axis 0 cyclic. -/
structure DomainModel where
  domain_axes : List (AxisId × Nat)
  constructs : List (Nat × Construct)
  cyclic : List AxisId
  anchorRoll : AxisId → Int → Int
  anchorRollFlip : AxisId → Int → Int
  match1d : Nat → Cond → List Bool
  matchNd : List Nat → List Cond → List (List Nat)
  containsDelete : List Nat → List Cond → List Nat
  cyclicSliceSelect : Nat → Int × Int → List Nat
  pathAvailable : Bool

/-- `self.domain_axes[axis].get_size()`. -/
def axisSize (dom : DomainModel) (a : AxisId) : Nat :=
  (((dom.domain_axes.find? (fun p => p.1 = a)).map Prod.snd).getD 0)

/-- One parsed `(identity, condition)` pair: the ordered axes the
identity resolved to, the backing `(key, construct)` when the identity
named a metadata construct (`none` when it named a domain axis
directly), and the condition. -/
structure Entry where
  axes : List AxisId
  item : Option (Nat × Construct)
  value : Cond
deriving DecidableEq, Repr

/-- `Except`-valued left fold used for all the sequential loops of
`_indices`: the first raised error aborts the whole call. -/
def exFold (f : σ → α → Except Err σ) : σ → List α → Except Err σ
  | s, [] => .ok s
  | s, x :: xs =>
    match f s x with
    | .error err => .error err
    | .ok s' => exFold f s' xs

/-- `Except.isOk`. -/
def exOk : Except Err α → Bool
  | .ok _ => true
  | .error _ => false

/-- Decidable equality of call outcomes, for evaluating the embedding on
closed inputs. -/
def exceptEqDec {ε α : Type} [DecidableEq ε] [DecidableEq α] :
    DecidableEq (Except ε α)
  | .error a, .error b =>
    if h : a = b then .isTrue (by rw [h]) else .isFalse (fun hc => h (by injection hc))
  | .error _, .ok _ => .isFalse (fun hc => Except.noConfusion hc)
  | .ok _, .error _ => .isFalse (fun hc => Except.noConfusion hc)
  | .ok a, .ok b =>
    if h : a = b then .isTrue (by rw [h]) else .isFalse (fun hc => h (by injection hc))

instance {ε α : Type} [DecidableEq ε] [DecidableEq α] : DecidableEq (Except ε α) :=
  exceptEqDec

/-- Python `list.index(a)`: position of the first occurrence. -/
def pyIndex (l : List AxisId) (a : AxisId) : Nat :=
  match l with
  | [] => 0
  | x :: xs => if x = a then 0 else pyIndex xs a + 1

/-- Minimum of a matched-position row (`ind.min(axis=1)` entry);
`numpy` rejects empty rows, which the caller checks separately. -/
def rowMin : List Nat → Nat
  | [] => 0
  | [x] => x
  | x :: y :: xs => min x (rowMin (y :: xs))

/-- Maximum of a matched-position row (`ind.max(axis=1)` entry). -/
def rowMax : List Nat → Nat
  | [] => 0
  | [x] => x
  | x :: y :: xs => max x (rowMax (y :: xs))

/-- Python `sorted(set(xs))` on integer positions. -/
def sortedUnique (xs : List Nat) : List Nat :=
  List.insertionSort (· ≤ ·) xs.dedup

/-- Positions of the `True` entries of a boolean array: `numpy.where`. -/
def trueIndices (bs : List Bool) : List Nat :=
  (bs.enum.filter (fun p => p.2)).map (fun p => p.1)

/-- The arithmetic progression walked by a Python slice, with fuel. -/
def sliceWalk : Nat → Int → Int → Int → List Int
  | 0, _, _, _ => []
  | fuel + 1, i, stop, step =>
    if (step > 0 ∧ i < stop) ∨ (step < 0 ∧ i > stop) then
      i :: sliceWalk fuel (i + step) stop step
    else []

/-- Python `slice.indices(n)` followed by materialisation: the positions
of `range(n)` selected by the slice. -/
def pySliceIndices (n : Nat) (s : Slice) : List Nat :=
  let step := s.step.getD 1
  if step = 0 then []
  else if step > 0 then
    let start : Int :=
      match s.start with
      | none => 0
      | some v => if v < 0 then max (v + n) 0 else min v n
    let stop : Int :=
      match s.stop with
      | none => (n : Int)
      | some v => if v < 0 then max (v + n) 0 else min v n
    (sliceWalk n start stop step).map Int.toNat
  else
    let start : Int :=
      match s.start with
      | none => (n : Int) - 1
      | some v => if v < 0 then max (v + n) (-1) else min v ((n : Int) - 1)
    let stop : Int :=
      match s.stop with
      | none => -1
      | some v => if v < 0 then max (v + n) (-1) else min v ((n : Int) - 1)
    (sliceWalk n start stop step).map Int.toNat

/-- 1-d CASE 1 under envelope/full: `Data(list(range(size)))[value]`,
the absolute positions denoted by a literal index expression. -/
def applyLiteralIndex (n : Nat) : Cond → List Nat
  | .litList xs => xs.map (fun v => (if v < 0 then v + (n : Int) else v).toNat)
  | .litBools bs => trueIndices bs
  | .litSlice s => pySliceIndices n s
  | _ => []

/-- The literal condition used directly as the axis index (1-d CASE 1
under compress). -/
def literalIndex : Cond → Index
  | .litList xs => Index.ints xs
  | .litBools bs => Index.bools bs
  | .litSlice s => Index.slice s
  | _ => Index.full

/-- Python `list.insert(i, x)` (appends when `i` is past the end). -/
def insertAt : Nat → α → List α → List α
  | 0, x, l => x :: l
  | _ + 1, x, [] => [x]
  | n + 1, x, a :: l => a :: insertAt n x l

/-- The axis order of a construct after `Domain.transpose(data_axes,
constructs=True)`: the axes the construct spans, reordered to follow
`order`, with axes the target order does not mention re-inserted at
their original positions (`transpose`, the `new_construct_axes`
computation). -/
def transposedAxes (order cs : List AxisId) : List AxisId :=
  cs.enum.foldl (fun acc p => if p.2 ∈ acc then acc else insertAt p.1 p.2 acc)
    (order.filter (fun a => decide (a ∈ cs)))

/-- `numpy.delete(row, delete)`: drop the columns listed in `delete`. -/
def numpyDelete (row : List Nat) (delete : List Nat) : List Nat :=
  (row.enum.filter (fun p => !(delete.contains p.1))).map (fun p => p.2)

/-- Positional-argument parsing of `_indices` (`args` holds one element,
the data axes, or two, the mode tuple then the data axes; both are
tuples of strings). -/
def parseArgs (args : List (List String)) : Except Err (List String × List String) :=
  if ¬ (1 ≤ args.length ∧ args.length ≤ 2) then
    .error (.valueError "Must provide 1 or 2 positional arguments")
  else if args.length = 1 then
    .ok ([], args.headD [])
  else
    .ok (args.headD [], args.getD 1 [])

/-- The mode flags of `_indices`:
`envelope = 'envelope' in mode`, `full = 'full' in mode`,
`compress = 'compress' in mode or not (envelope or full)`.
Returned as `(compress, envelope, full)`. -/
def modeFlags (mode : List String) : Bool × Bool × Bool :=
  let envelope := mode.contains "envelope"
  let full := mode.contains "full"
  let compress := mode.contains "compress" || !(envelope || full)
  (compress, envelope, full)

/-- Resolving one identity: a domain axis key directly (no backing
construct), else the unique data-bearing construct whose identity
matches; zero or several matches raise. -/
def resolveIdentity (dom : DomainModel) (identity : Identity) :
    Except Err (List AxisId × Option (Nat × Construct)) :=
  if identity ∈ dom.domain_axes.map Prod.fst then
    .ok ([identity], none)
  else
    match dom.constructs.filter (fun kc => kc.2.identity = identity) with
    | [kc] => .ok (kc.2.axes, some kc)
    | _ => .error (.valueError "Ambiguous axis or axes")

/-- Lexicographic comparison of character lists by code point, the
order Python uses when sorting axis-id strings. -/
def strLeB : List Char → List Char → Bool
  | [], _ => true
  | _ :: _, [] => false
  | a :: as, b :: bs =>
    if a.val < b.val then true
    else if b.val < a.val then false
    else strLeB as bs

/-- `a <= b` on axis ids. -/
def axisLeB (a b : AxisId) : Bool := strLeB a.data b.data

/-- Insertion step of `sorted(...)` on axis-id tuples. -/
def insSorted (x : AxisId) : List AxisId → List AxisId
  | [] => [x]
  | y :: ys => if axisLeB x y then x :: y :: ys else y :: insSorted x ys

/-- Python `tuple(sorted(axes))`. -/
def sortList (l : List AxisId) : List AxisId :=
  l.foldr insSorted []

/-- `parsed.setdefault(sorted_axes, []).append(entry)` on an
insertion-ordered table. -/
def insertGroup (parsed : List (List AxisId × List Entry)) (k : List AxisId)
    (e : Entry) : List (List AxisId × List Entry) :=
  if parsed.any (fun p => p.1 = k) then
    parsed.map (fun p => if p.1 = k then (p.1, p.2 ++ [e]) else p)
  else
    parsed ++ [(k, [e])]

/-- State of the kwargs-parsing loop of `_indices`: the axis-group table
keyed by sorted axis tuples, the set of unique axis ids claimed (as a
duplicate-free list) and the accumulated total count of axis ids claimed
by distinct groups. -/
structure ParseState where
  parsed : List (List AxisId × List Entry)
  unique_axes : List AxisId
  n_axes : Nat
deriving DecidableEq, Repr

/-- `unique_axes.update(sorted_axes)`: set union keeping first
occurrences. -/
def setUpdate (s : List AxisId) (axs : List AxisId) : List AxisId :=
  axs.foldl (fun acc a => if a ∈ acc then acc else acc ++ [a]) s

/-- One iteration of the kwargs loop: resolve the identity, count its
axes if the group is new, file the entry under its sorted axis tuple. -/
def parseStep (dom : DomainModel) (st : ParseState) (kv : Identity × Cond) :
    Except Err ParseState :=
  match resolveIdentity dom kv.1 with
  | .error err => .error err
  | .ok (axes, item) =>
    let sorted_axes := sortList axes
    let n_axes' :=
      if st.parsed.any (fun p => p.1 = sorted_axes) then st.n_axes
      else st.n_axes + sorted_axes.length
    .ok { parsed := insertGroup st.parsed sorted_axes ⟨axes, item, kv.2⟩,
          unique_axes := setUpdate st.unique_axes sorted_axes,
          n_axes := n_axes' }

/-- The kwargs-parsing loop of `_indices`. -/
def parseKwargs (dom : DomainModel) (kwargs : List (Identity × Cond)) :
    Except Err ParseState :=
  exFold (parseStep dom) ⟨[], [], 0⟩ kwargs

/-- The start/stop computation of 1-d CASE 2 (cyclic within/without
Query on a cyclic dimension coordinate), translated branch for branch
from `_indices`. -/
def wrapStartStop (op : QueryOp) (v0 v1 : Int) (increasing : Bool)
    (size period : Int) (roll rollFlip : Int → Int) : Int × Int :=
  let anchor0 := if increasing then v0 else v1
  let anchor1 := if increasing then v1 else v0
  let a := roll anchor0
  let b := rollFlip anchor1
  if |anchor1 - anchor0| ≥ period then
    let set_start_stop := if op = QueryOp.wo then 0 else -a
    (set_start_stop, set_start_stop)
  else if a + b = size then
    let b := roll anchor1
    if (b = a ∧ op = QueryOp.wo) ∨ ¬ (b = a ∨ op = QueryOp.wo) then (-a, -a)
    else (0, 0)
  else if op = QueryOp.wo then (b - size, -a + size)
  else (-a, b - size)

/-- 1-d CASE 3 (generic relational match against a 1-d construct). -/
def case3 (dom : DomainModel) (e f : Bool) (kc : Nat × Construct) (value : Cond) :
    Except Err (Index × Option (List (List Nat))) :=
  let item_match := dom.match1d kc.1 value
  if item_match.any id then
    if e || f then .ok (Index.full, some [trueIndices item_match])
    else .ok (Index.bools item_match, none)
  else .error (.valueError "No axis indices found from condition")

/-- The 1-d axis resolver of `_indices` (CASE 1: literal index;
CASE 2: cyclic wrap Query; CASE 3: generic relational match; raising
when the identity named a domain axis directly but the condition is not
a literal index expression).  Returns the axis index together with the
matched-position rows `ind` when a later envelope/full/mask pass needs
them. -/
def process1d (dom : DomainModel) (e f : Bool) (axis : AxisId)
    (item : Option (Nat × Construct)) (value : Cond) :
    Except Err (Index × Option (List (List Nat))) :=
  if value.isExplicitIndex then
    if e || f then
      let size := axisSize dom axis
      .ok (Index.full, some [applyLiteralIndex size value])
    else
      .ok (literalIndex value, none)
  else
    match item with
    | some kc =>
      match value with
      | .query q =>
        if (q.op == QueryOp.wi || q.op == QueryOp.wo)
            && (kc.2.constructType == "dimension_coordinate")
            && decide (axis ∈ dom.cyclic) then
          match kc.2.period with
          | none => .error (.typeError "unsupported comparison with a period of None")
          | some period =>
            let ss := wrapStartStop q.op q.val0 q.val1 kc.2.increasing
                (kc.2.size : Int) period (dom.anchorRoll axis) (dom.anchorRollFlip axis)
            if f then
              .ok (Index.full, some [dom.cyclicSliceSelect kc.2.size ss])
            else
              .ok (Index.slice ⟨some ss.1, some ss.2, some 1⟩, none)
        else
          case3 dom e f kc value
      | _ => case3 dom e f kc value
    | none =>
      .error (.valueError
        "Must specify a domain axis construct or a construct with data for which to create indices")

/-- Scan deciding whether the N-d group is a bounds-based containment
match: at least one construct has bounds, and every `Query` condition is
a contains (setting the flag) or an equality; any other operator aborts
the scan with `False`. -/
def detectContainsGo (c : Bool) : List Cond → Bool
  | [] => c
  | .query q :: rest =>
    if q.op == QueryOp.containsOp then detectContainsGo true rest
    else if q.op == QueryOp.eq then detectContainsGo c rest
    else false
  | _ :: rest => detectContainsGo c rest

/-- `contains` flag of the N-d branch. -/
def detectContains (hasBounds : Bool) (points : List Cond) : Bool :=
  if hasBounds then detectContainsGo false points else false

/-- The guard sequence of the containment-refinement block: matplotlib
must be importable, the group must hold exactly two conditions
(`n_items != 2` raises, with a message citing the group's axis count),
and the bounds count must not lie strictly between zero and the item
count. -/
def containsCheck (pathAvailable : Bool) (n_items n_axes nBounds : Nat) :
    Except Err Unit :=
  if !pathAvailable then
    .error (.importError
      "Must install matplotlib to create indices based on N-d constructs and a contains Query object")
  else if n_items ≠ 2 then
    .error (.valueError ("Cannot index for cell from " ++ toString n_axes
      ++ "-d coordinate objects"))
  else if 0 < nBounds ∧ nBounds < n_items then
    .error (.valueError "bounds alskdaskds TODO")
  else
    .ok ()

/-- State of the mode-policy loop over one group's matched positions:
the per-axis index list, the mask shape under construction, the running
envelope volume, the matched-position rows (offset in place) and the
Python local `size` (defined only once some iteration has set it). -/
structure MPState where
  indices : List Index
  mask_shape : List (Option Nat)
  masked_subspace_size : Nat
  ind : List (List Nat)
  sizeVar : Option Nat
deriving DecidableEq, Repr

/-- State update shared by the three mode branches of the policy loop. -/
def writeMP (st : MPState) (i position : Nat) (index : Index)
    (size start : Nat) (row : List Nat) : MPState :=
  { indices := st.indices.set position index,
    mask_shape := st.mask_shape.set position (some size),
    masked_subspace_size := st.masked_subspace_size * size,
    ind := st.ind.set i (row.map (fun x => x - start)),
    sizeVar := some size }

/-- One iteration of the mode-policy loop (`for i, (axis, start, stop)
in enumerate(zip(item_axes, ind.min(axis=1), ind.max(axis=1)))`):
skip axes the data does not span; when the axis slot is still
unrestricted, fix its index and size according to the active mode;
record the size into the mask shape and the envelope volume; offset the
row by the chosen start. -/
def mpStep (dom : DomainModel) (c e f : Bool) (dax : List AxisId)
    (st : MPState) (i : Nat) (ax : AxisId) (row : List Nat) : Except Err MPState :=
  if ax ∈ dax then
    if row.isEmpty then .error (.valueError "zero-size array reduction")
    else
      let position := pyIndex dax ax
      let start := rowMin row
      let stop := rowMax row
      if st.indices.getD position Index.full = Index.full then
        if c then
          let size := stop - start + 1
          let index := Index.ints ((sortedUnique row).map Int.ofNat)
          .ok (writeMP st i position index size start row)
        else if e then
          let stop := stop + 1
          let size := stop - start
          let index := Index.slice ⟨some (start : Int), some (stop : Int), none⟩
          .ok (writeMP st i position index size start row)
        else if f then
          let start := 0
          let stop := axisSize dom ax
          let size := stop - start
          let index := Index.slice ⟨some (start : Int), some (stop : Int), none⟩
          .ok (writeMP st i position index size start row)
        else
          .error (.valueError "Must have full, envelope or compress")
      else
        match st.sizeVar with
        | none => .error (.nameError "size")
        | some size =>
          .ok { st with
                mask_shape := st.mask_shape.set position (some size),
                masked_subspace_size := st.masked_subspace_size * size,
                ind := st.ind.set i (row.map (fun x => x - start)) }
  else
    .ok st

/-- The mode-policy loop body over an explicit row list. -/
def mpFold (dom : DomainModel) (c e f : Bool) (dax : List AxisId) :
    MPState → List (Nat × AxisId × List Nat) → Except Err MPState
  | st, [] => .ok st
  | st, r :: rest =>
    match mpStep dom c e f dax st r.1 r.2.1 r.2.2 with
    | .error err => .error err
    | .ok st' => mpFold dom c e f dax st' rest

/-- The full mode-policy pass for one group: initialise
`mask_shape = [None] * ndim`, `masked_subspace_size = 1`, then run the
loop over the enumerated `(axis, row)` pairs. -/
def modePolicy (dom : DomainModel) (c e f : Bool) (dax : List AxisId)
    (item_axes : List AxisId) (ind : List (List Nat)) (indices : List Index) :
    Except Err MPState :=
  mpFold dom c e f dax
    ⟨indices, List.replicate dax.length none, 1, ind, none⟩
    (item_axes.zip ind).enum

/-- Number of matched positions of a group: `ind.shape[1]`. -/
def nMatches (ind : List (List Nat)) : Nat := (ind.headD []).length

/-- Specification-side description of the compress index of an axis: the
sorted list of unique positions actually hit, written independently of
the implementation as the increasing enumeration of the members of
`[0, rowMax row]` that occur in the row. -/
def specUniqueSorted (row : List Nat) : List Nat :=
  (List.range (rowMax row + 1)).filter (fun x => decide (x ∈ row))

/-- The index the mode policy fixes for an in-data axis of a group
(compress: sorted unique positions; envelope: the slice
`[min, max + 1)`; full: the slice `[0, axis_size)`). -/
def mpTarget (dom : DomainModel) (c e : Bool) (ax : AxisId) (row : List Nat) : Index :=
  if c then Index.ints ((sortedUnique row).map Int.ofNat)
  else if e then
    Index.slice ⟨some (rowMin row : Int), some ((rowMax row + 1 : Nat) : Int), none⟩
  else Index.slice ⟨some 0, some ((axisSize dom ax : Nat) : Int), none⟩

/-- The per-axis extent the mode policy records into the envelope volume
(`masked_subspace_size`): the envelope extent `max - min + 1` under
compress and envelope, the axis size under full. -/
def mpSizeOf (dom : DomainModel) (c e : Bool) (ax : AxisId) (row : List Nat) : Nat :=
  if c ∨ e then rowMax row - rowMin row + 1 else axisSize dom ax

/-- The start each matched position of an axis is offset by: the
per-axis minimum under compress and envelope, zero under full. -/
def mpStart (c e : Bool) (row : List Nat) : Nat :=
  if c ∨ e then rowMin row else 0

/-- State threaded through the group loop: the per-axis index list and
the auxiliary masks accumulated so far. -/
structure GroupState where
  indices : List Index
  auxiliary_mask : List Mask
deriving DecidableEq, Repr

/-- `create_mask = ind.shape[1] < masked_subspace_size` followed by the
conditional construction and accumulation of the group's auxiliary
mask. -/
def maskDecision (compressFlag : Bool) (gst : GroupState) (mp : MPState) :
    GroupState :=
  if nMatches mp.ind < mp.masked_subspace_size then
    { indices := mp.indices,
      auxiliary_mask := gst.auxiliary_mask ++ [⟨mp.mask_shape, mp.ind, compressFlag⟩] }
  else
    { indices := mp.indices, auxiliary_mask := gst.auxiliary_mask }

/-- Processing of one axis group of `_indices`: the conditions-per-axes
check, then the 1-d resolver or the N-d resolver (axis-order
reconciliation, oracle boolean match, optional containment refinement),
then the mode policy and the mask decision whenever matched positions
were produced. -/
def processGroup (dom : DomainModel) (c e f : Bool) (dax : List AxisId)
    (gst : GroupState) (grp : List AxisId × List Entry) : Except Err GroupState :=
  let sorted_axes := grp.1
  let entries := grp.2
  let n_items := entries.length
  let n_axes := sorted_axes.length
  if n_items > n_axes then
    .error (.valueError "Cannot specify more conditions than axes for a group")
  else
    match entries.head? with
    | none => .ok gst
    | some e0 =>
      if n_axes = 1 then
        match e0.axes.head? with
        | none => .error (.valueError "internal: empty axis tuple")
        | some axis =>
          match process1d dom e f axis e0.item e0.value with
          | .error err => .error err
          | .ok (index, ind?) =>
            let indices :=
              if axis ∈ dax then gst.indices.set (pyIndex dax axis) index
              else gst.indices
            match ind? with
            | none => .ok { gst with indices := indices }
            | some ind =>
              match modePolicy dom c e f dax e0.axes ind indices with
              | .error err => .error err
              | .ok mp => .ok (maskDecision c gst mp)
      else
        match e0.item with
        | none => .error (.typeError "internal: N-d group without a construct")
        | some kc0 =>
          let item_axes := transposedAxes dax kc0.2.axes
          let keys := entries.filterMap (fun en => en.item.map Prod.fst)
          let points := entries.map (fun en => en.value)
          let ind0 := dom.matchNd keys points
          let nBounds := (entries.filter (fun en =>
            match en.item with
            | some kc => kc.2.hasBounds
            | none => false)).length
          let refined : Except Err (List (List Nat)) :=
            if detectContains (nBounds ≠ 0) points then
              match containsCheck dom.pathAvailable n_items n_axes nBounds with
              | .error err => .error err
              | .ok _ =>
                let delete := dom.containsDelete keys points
                .ok (if delete.isEmpty then ind0
                     else ind0.map (fun rw => numpyDelete rw delete))
            else .ok ind0
          match refined with
          | .error err => .error err
          | .ok ind =>
            match modePolicy dom c e f dax item_axes ind gst.indices with
            | .error err => .error err
            | .ok mp => .ok (maskDecision c gst mp)

/-- Modelled from the spec: the repository's `parse_indices` helper
(its `functions` module is not under `src`) is described as a final
validation/normalisation pass that resolves negative indices, fills in
step defaults and bounds-checks each index against the axis size. -/
def normalizeIndex (n : Nat) : Index → Index
  | .slice s =>
    let step := s.step.getD 1
    let start : Int :=
      match s.start with
      | none => if step > 0 then 0 else (n : Int) - 1
      | some v => if v < 0 then v + n else v
    let stop : Int :=
      match s.stop with
      | none => if step > 0 then (n : Int) else -1
      | some v => if v < 0 then v + n else v
    .slice ⟨some start, some stop, some step⟩
  | ix => ix

/-- Modelled from the spec: `parse_indices(shape, indices)` applied
axis by axis. -/
def parse_indices (shape : List Nat) (indices : List Index) : List Index :=
  (shape.zip indices).map (fun p => normalizeIndex p.1 p.2)

/-- The whole of `_indices`: positional-argument parsing, mode flags,
kwargs parsing with the overlapping-groups check, the group loop from
the all-unrestricted initial index list, final normalisation and the
mask-tagged assembly of the result. -/
def resolveIndices (dom : DomainModel) (args : List (List String))
    (kwargs : List (Identity × Cond)) : Except Err ResolveResult :=
  match parseArgs args with
  | .error err => .error err
  | .ok (mode, dax) =>
    let flags := modeFlags mode
    match parseKwargs dom kwargs with
    | .error err => .error err
    | .ok pst =>
      if pst.unique_axes.length < pst.n_axes then
        .error (.valueError "Multiple constructs with incompatible domain axes")
      else
        match exFold (processGroup dom flags.1 flags.2.1 flags.2.2 dax)
            ⟨List.replicate dax.length Index.full, []⟩ pst.parsed with
        | .error err => .error err
        | .ok gst =>
          let ixs := parse_indices (dax.map (axisSize dom)) gst.indices
          if gst.auxiliary_mask.isEmpty then .ok (.plain ixs)
          else .ok (.masked gst.auxiliary_mask ixs)

/-- The per-axis index list of a resolution result (elements three
onwards of the tagged form). -/
def resultIxs : ResolveResult → List Index
  | .plain ixs => ixs
  | .masked _ ixs => ixs

/-- Outcome of a Python call: a value or a raised exception. -/
inductive PyOutcome (α : Type) where
  | ok (a : α)
  | raised (exnClass : String) (detail : String)
deriving DecidableEq, Repr

/-- The names bound in scope inside the body of `Domain.cyclic`: its
four parameters and the two module-level bindings of `cf/domain.py`
(`import cfdm` and the `Domain` class itself). -/
def cyclicScopeNames : List String :=
  ["self", "identity", "iscyclic", "period", "cfdm", "Domain"]

/-- Shallow model of `Domain.cyclic`: its first statement,
`old = set([data_axes[i] for i in data.cyclic()])`, evaluates the free
names `data` and then `data_axes`, so the call raises `NameError`
unless both are bound in scope; only then would the method return `old`
(the previously cyclic axes, supplied here as an oracle since the
broken first statement is the only place that would compute it),
returning it immediately when no identity is given. -/
def cyclicModel (scope : List String) (oldCyclic : List String)
    (identity : Option String) : PyOutcome (List String) :=
  if "data" ∉ scope then .raised "NameError" "name data is not defined"
  else if "data_axes" ∉ scope then .raised "NameError" "name data_axes is not defined"
  else
    match identity with
    | none => .ok oldCyclic
    | some _ => .ok oldCyclic

/-- The case analysis the claim gives for the cyclic wrap resolver,
with the quantities named as in the spec: `a` the anchor roll of the
lower logical endpoint, `b` the anchor roll of the upper endpoint after
flipping the axis, `b2` the re-anchored roll of the upper endpoint,
`size` the axis size. -/
def wrapSpecCases (op : QueryOp) (v0 v1 : Int) (inc : Bool)
    (size per : Int) (roll rollFlip : Int → Int) : Prop :=
  let anchor0 := if inc then v0 else v1
  let anchor1 := if inc then v1 else v0
  let a := roll anchor0
  let b := rollFlip anchor1
  let b2 := roll anchor1
  let ss := wrapStartStop op v0 v1 inc size per roll rollFlip
  (|anchor1 - anchor0| ≥ per →
    ss = if op = QueryOp.wo then ((0 : Int), (0 : Int)) else (-a, -a)) ∧
  (|anchor1 - anchor0| < per → a + b = size →
    ss = if (b2 = a ∧ op = QueryOp.wo) ∨ (b2 ≠ a ∧ op = QueryOp.wi) then (-a, -a)
         else ((0 : Int), (0 : Int))) ∧
  (|anchor1 - anchor0| < per → a + b ≠ size →
    ss = if op = QueryOp.wo then (b - size, -a + size) else (-a, b - size))

/-- A sample 1-d dimension coordinate (latitude-like) on axis `ax0`. -/
def latC : Construct :=
  { identity := "lat", axes := ["ax0"], constructType := "dimension_coordinate",
    increasing := true, size := 5, period := none, hasBounds := false }

/-- A sample cyclic 1-d dimension coordinate (longitude-like) on `ax1`. -/
def lonC : Construct :=
  { identity := "lon", axes := ["ax1"], constructType := "dimension_coordinate",
    increasing := true, size := 8, period := some 360, hasBounds := false }

/-- A sample 2-d auxiliary coordinate spanning `ax0` and `ax1`. -/
def aux2dC : Construct :=
  { identity := "aux2d", axes := ["ax0", "ax1"], constructType := "auxiliary_coordinate",
    increasing := true, size := 40, period := none, hasBounds := false }

/-- A concrete domain (latitude(5), longitude(8), longitude cyclic with
period 360) used to evaluate the embedded resolver on closed inputs. -/
def sampleDom : DomainModel :=
  { domain_axes := [("ax0", 5), ("ax1", 8)],
    constructs := [(0, latC), (1, lonC), (2, aux2dC)],
    cyclic := ["ax1"],
    anchorRoll := fun _ v => if v = 100 then 6 else 1,
    anchorRollFlip := fun _ v => if v = 200 then 1 else 2,
    match1d := fun k _ =>
      if k = 0 then [false, true, false, false, true] else List.replicate 8 false,
    matchNd := fun _ _ => [[1, 1, 3], [2, 4, 4]],
    containsDelete := fun _ _ => [],
    cyclicSliceSelect := fun n p =>
      (List.range ((p.2 - p.1).toNat)).map (fun k => ((p.1 + k) % n).toNat),
    pathAvailable := true }

/-- The mode-policy state reached on the sample compress run. -/
def mpWitnessC : MPState :=
  { indices := [Index.ints [1, 3], Index.ints [2, 6]],
    mask_shape := [some 3, some 5],
    masked_subspace_size := 15,
    ind := [[0, 2, 0], [0, 0, 4]],
    sizeVar := some 5 }

/-- The mode-policy state reached on the sample envelope run. -/
def mpWitnessE : MPState :=
  { indices := [Index.slice ⟨some 1, some 4, none⟩, Index.slice ⟨some 2, some 7, none⟩],
    mask_shape := [some 3, some 5],
    masked_subspace_size := 15,
    ind := [[0, 2, 0], [0, 0, 4]],
    sizeVar := some 5 }

/-! ## List helper lemmas -/

theorem get?_zip_of {α β : Type} {l₁ : List α} {l₂ : List β} {i : Nat} {a : α} {b : β}
    (h₁ : l₁.get? i = some a) (h₂ : l₂.get? i = some b) :
    (l₁.zip l₂).get? i = some (a, b) := by
  induction l₁ generalizing l₂ i with
  | nil => simp at h₁
  | cons x xs ih =>
    cases l₂ with
    | nil => simp at h₂
    | cons y ys =>
      cases i with
      | zero =>
        simp only [List.get?] at h₁ h₂
        cases h₁; cases h₂; rfl
      | succ n =>
        simp only [List.get?] at h₁ h₂ ⊢
        exact ih h₁ h₂

theorem headD_of_get? {α : Type} {l : List α} {a d : α} (h : l.get? 0 = some a) :
    l.headD d = a := by
  cases l with
  | nil => simp at h
  | cons x xs => simp only [List.get?] at h; cases h; rfl

theorem map_fst_zip_sublist {α β : Type} (l₁ : List α) (l₂ : List β) :
    ((l₁.zip l₂).map Prod.fst).Sublist l₁ := by
  induction l₁ generalizing l₂ with
  | nil => simp
  | cons x xs ih =>
    cases l₂ with
    | nil => simp
    | cons y ys => simpa using List.Sublist.cons₂ x (ih ys)

theorem enumFrom_map_snd {α : Type} (n : Nat) (l : List α) :
    (List.enumFrom n l).map Prod.snd = l := by
  induction l generalizing n with
  | nil => rfl
  | cons x xs ih => simpa [List.enumFrom] using ih (n + 1)

theorem enum_map_snd {α : Type} (l : List α) : l.enum.map Prod.snd = l :=
  enumFrom_map_snd 0 l

theorem pyIndex_get? (l : List AxisId) (a : AxisId) (h : a ∈ l) :
    l.get? (pyIndex l a) = some a := by
  induction l with
  | nil => cases h
  | cons x xs ih =>
    by_cases hx : x = a
    · simp [pyIndex, hx]
    · have hmem : a ∈ xs := by
        cases h with
        | head => exact absurd rfl hx
        | tail _ h => exact h
      have hstep : pyIndex (x :: xs) a = pyIndex xs a + 1 := by simp [pyIndex, hx]
      rw [hstep]
      simpa using ih hmem

theorem pyIndex_lt (l : List AxisId) (a : AxisId) (h : a ∈ l) :
    pyIndex l a < l.length := by
  induction l with
  | nil => cases h
  | cons x xs ih =>
    by_cases hx : x = a
    · simp [pyIndex, hx]
    · have hmem : a ∈ xs := by
        cases h with
        | head => exact absurd rfl hx
        | tail _ h => exact h
      simpa [pyIndex, hx] using ih hmem

theorem rowMax_ge_of_mem {row : List Nat} {x : Nat} (h : x ∈ row) : x ≤ rowMax row := by
  induction row with
  | nil => cases h
  | cons a l ih =>
    cases l with
    | nil =>
      cases h with
      | head => simp [rowMax]
      | tail _ h => cases h
    | cons b m =>
      cases h with
      | head => simp [rowMax]
      | tail _ h => exact le_trans (ih h) (by simp [rowMax])

theorem rowMin_le_of_mem {row : List Nat} {x : Nat} (h : x ∈ row) : rowMin row ≤ x := by
  induction row with
  | nil => cases h
  | cons a l ih =>
    cases l with
    | nil =>
      cases h with
      | head => simp [rowMin]
      | tail _ h => cases h
    | cons b m =>
      cases h with
      | head => simp [rowMin]
      | tail _ h => exact le_trans (by simp [rowMin]) (ih h)

theorem rowMin_le_rowMax {row : List Nat} (h : row ≠ []) : rowMin row ≤ rowMax row := by
  cases row with
  | nil => exact absurd rfl h
  | cons a l =>
    exact le_trans (rowMin_le_of_mem (List.mem_cons_self a l))
      (rowMax_ge_of_mem (List.mem_cons_self a l))

theorem sortedUnique_eq_spec (row : List Nat) :
    sortedUnique row = specUniqueSorted row := by
  apply List.eq_of_perm_of_sorted
      (r := fun x y : Nat => x ≤ y)
  · have h₁ : List.Perm (sortedUnique row) row.dedup :=
      List.perm_insertionSort _ row.dedup
    have hnd₁ : (sortedUnique row).Nodup :=
      (List.Perm.nodup_iff h₁).2 (List.nodup_dedup row)
    have hnd₂ : (specUniqueSorted row).Nodup :=
      List.Nodup.filter _ (List.nodup_range _)
    refine List.Perm.trans h₁ ?_
    refine (List.perm_ext_iff_of_nodup (List.nodup_dedup row) hnd₂).2 ?_
    intro x
    constructor
    · intro hx
      have hx' : x ∈ row := List.mem_dedup.1 hx
      have hlt : x < rowMax row + 1 := Nat.lt_succ_of_le (rowMax_ge_of_mem hx')
      simp [specUniqueSorted, List.mem_filter, List.mem_range, hlt, hx']
    · intro hx
      have hx' : x ∈ row := by
        have := (List.mem_filter.1 hx).2
        simpa using this
      exact List.mem_dedup.2 hx'
  · exact List.sorted_insertionSort _ row.dedup
  · have hlt : (List.range (rowMax row + 1)).Pairwise (fun x y : Nat => x < y) :=
      List.pairwise_lt_range _
    exact List.Pairwise.filter _ (hlt.imp le_of_lt)

theorem insertAt_mem {α : Type} {x a : α} : ∀ {n : Nat} {l : List α},
    x ∈ insertAt n a l → x = a ∨ x ∈ l := by
  intro n
  induction n with
  | zero =>
    intro l h
    cases h with
    | head => exact Or.inl rfl
    | tail _ h => exact Or.inr h
  | succ m ih =>
    intro l h
    cases l with
    | nil =>
      cases h with
      | head => exact Or.inl rfl
      | tail _ h => cases h
    | cons b bs =>
      cases h with
      | head => exact Or.inr (List.mem_cons_self _ _)
      | tail _ h =>
        cases ih h with
        | inl h => exact Or.inl h
        | inr h => exact Or.inr (List.mem_cons_of_mem _ h)

theorem transposedAxes_foldl_subset {cs : List AxisId} :
    ∀ (ps : List (Nat × AxisId)) (acc : List AxisId),
    (∀ x ∈ acc, x ∈ cs) → (∀ p ∈ ps, p.2 ∈ cs) →
    ∀ x ∈ ps.foldl (fun acc p => if p.2 ∈ acc then acc else insertAt p.1 p.2 acc) acc,
      x ∈ cs := by
  intro ps
  induction ps with
  | nil => intro acc hacc _ x hx; exact hacc x hx
  | cons p ps ih =>
    intro acc hacc hps x hx
    simp only [List.foldl] at hx
    by_cases hmem : p.2 ∈ acc
    · rw [if_pos hmem] at hx
      exact ih acc hacc (fun q hq => hps q (List.mem_cons_of_mem _ hq)) x hx
    · rw [if_neg hmem] at hx
      refine ih _ ?_ (fun q hq => hps q (List.mem_cons_of_mem _ hq)) x hx
      intro y hy
      cases insertAt_mem hy with
      | inl h => cases h; exact hps p (List.mem_cons_self _ _)
      | inr h => exact hacc y h

theorem transposedAxes_subset {order cs : List AxisId} {x : AxisId}
    (hx : x ∈ transposedAxes order cs) : x ∈ cs := by
  refine transposedAxes_foldl_subset cs.enum (order.filter (fun a => decide (a ∈ cs)))
      ?_ ?_ x hx
  · intro y hy
    have := List.of_mem_filter hy
    simpa using this
  · intro p hp
    have := List.mem_enum_iff_get?.1 hp
    exact List.get?_mem this

/-! ## Mode-policy loop lemmas -/

theorem getD_of_get? {α : Type} {l : List α} {n : Nat} {a : α} (d : α)
    (h : l.get? n = some a) : l.getD n d = a := by
  simp only [List.getD_eq_getElem?_getD, ← List.get?_eq_getElem?, h, Option.getD_some]

theorem get?_of_zip {α β : Type} {l₁ : List α} {l₂ : List β} {i : Nat} {a : α} {b : β}
    (h : (l₁.zip l₂).get? i = some (a, b)) :
    l₁.get? i = some a ∧ l₂.get? i = some b := by
  induction l₁ generalizing l₂ i with
  | nil => simp at h
  | cons x xs ih =>
    cases l₂ with
    | nil => simp at h
    | cons y ys =>
      cases i with
      | zero =>
        simp only [List.zip_cons_cons, List.get?] at h
        cases h
        exact ⟨rfl, rfl⟩
      | succ n =>
        simp only [List.zip_cons_cons, List.get?] at h ⊢
        exact ih h

/-- Exhaustive case analysis of one successful mode-policy iteration:
the axis is skipped, or the slot is fixed (collapsing the three mode
branches into `mpTarget`/`mpSizeOf`/`mpStart`), or the slot was already
fixed and only the bookkeeping runs with the stale Python `size`. -/
theorem mpStep_cases {dom : DomainModel} {c e f : Bool} {dax : List AxisId}
    {st st' : MPState} {i : Nat} {ax : AxisId} {row : List Nat}
    (hok : mpStep dom c e f dax st i ax row = .ok st') :
    (ax ∉ dax ∧ st' = st) ∨
    (ax ∈ dax ∧ row ≠ [] ∧
      st.indices.getD (pyIndex dax ax) Index.full = Index.full ∧
      st' = writeMP st i (pyIndex dax ax) (mpTarget dom c e ax row)
              (mpSizeOf dom c e ax row) (mpStart c e row) row) ∨
    (ax ∈ dax ∧ row ≠ [] ∧
      ¬ st.indices.getD (pyIndex dax ax) Index.full = Index.full ∧
      ∃ size, st.sizeVar = some size ∧
        st' = { st with
                mask_shape := st.mask_shape.set (pyIndex dax ax) (some size),
                masked_subspace_size := st.masked_subspace_size * size,
                ind := st.ind.set i (row.map (fun x => x - rowMin row)) }) := by
  by_cases hax : ax ∈ dax
  · simp only [mpStep, if_pos hax] at hok
    by_cases hrow : row.isEmpty
    · rw [if_pos hrow] at hok
      simp at hok
    · rw [if_neg hrow] at hok
      have hrow' : row ≠ [] := by
        intro hcontra; rw [hcontra] at hrow; exact hrow rfl
      by_cases hguard : st.indices.getD (pyIndex dax ax) Index.full = Index.full
      · rw [if_pos hguard] at hok
        refine Or.inr (Or.inl ⟨hax, hrow', hguard, ?_⟩)
        by_cases hc : c
        · rw [if_pos hc] at hok
          injection hok with h
          rw [← h]
          simp [mpTarget, mpSizeOf, mpStart, hc]
        · rw [if_neg hc] at hok
          by_cases he : e
          · rw [if_pos he] at hok
            injection hok with h
            rw [← h]
            have hsize : rowMax row + 1 - rowMin row = rowMax row - rowMin row + 1 :=
              Nat.succ_sub (rowMin_le_rowMax hrow')
            simp [mpTarget, mpSizeOf, mpStart, hc, he, hsize]
          · rw [if_neg he] at hok
            by_cases hf : f
            · rw [if_pos hf] at hok
              injection hok with h
              rw [← h]
              simp [mpTarget, mpSizeOf, mpStart, hc, he]
            · rw [if_neg hf] at hok
              simp at hok
      · rw [if_neg hguard] at hok
        refine Or.inr (Or.inr ⟨hax, hrow', hguard, ?_⟩)
        cases hsz : st.sizeVar with
        | none => rw [hsz] at hok; simp at hok
        | some size =>
          rw [hsz] at hok
          injection hok with h
          exact ⟨size, rfl, h.symm⟩
  · simp only [mpStep, if_neg hax] at hok
    injection hok with h
    exact Or.inl ⟨hax, h.symm⟩

theorem mpStep_frame_indices {dom : DomainModel} {c e f : Bool} {dax : List AxisId}
    {st st' : MPState} {i : Nat} {ax : AxisId} {row : List Nat} {p : Nat}
    (hok : mpStep dom c e f dax st i ax row = .ok st')
    (hp : dax.get? p ≠ some ax) :
    st'.indices.get? p = st.indices.get? p := by
  rcases mpStep_cases hok with ⟨_, h⟩ | ⟨hax, _, _, h⟩ | ⟨_, _, _, _, _, h⟩
  · rw [h]
  · have hpos : pyIndex dax ax ≠ p := by
      intro hcontra
      exact hp (hcontra ▸ pyIndex_get? dax ax hax)
    rw [h]
    simp only [writeMP]
    exact List.get?_set_ne _ _ hpos
  · rw [h]

theorem mpStep_frame_ind {dom : DomainModel} {c e f : Bool} {dax : List AxisId}
    {st st' : MPState} {i : Nat} {ax : AxisId} {row : List Nat} {j : Nat}
    (hok : mpStep dom c e f dax st i ax row = .ok st')
    (hj : i ≠ j) :
    st'.ind.get? j = st.ind.get? j := by
  rcases mpStep_cases hok with ⟨_, h⟩ | ⟨_, _, _, h⟩ | ⟨_, _, _, _, _, h⟩
  · rw [h]
  · rw [h]
    simp only [writeMP]
    exact List.get?_set_ne _ _ hj
  · rw [h]
    exact List.get?_set_ne _ _ hj

theorem mpStep_lengths {dom : DomainModel} {c e f : Bool} {dax : List AxisId}
    {st st' : MPState} {i : Nat} {ax : AxisId} {row : List Nat}
    (hok : mpStep dom c e f dax st i ax row = .ok st') :
    st'.indices.length = st.indices.length ∧ st'.ind.length = st.ind.length := by
  rcases mpStep_cases hok with ⟨_, h⟩ | ⟨_, _, _, h⟩ | ⟨_, _, _, _, _, h⟩
  · rw [h]; exact ⟨rfl, rfl⟩
  · rw [h]; simp [writeMP]
  · rw [h]; simp

theorem mpFold_frame_indices {dom : DomainModel} {c e f : Bool} {dax : List AxisId} :
    ∀ {rows : List (Nat × AxisId × List Nat)} {st st' : MPState} {p : Nat},
    mpFold dom c e f dax st rows = .ok st' →
    (∀ r ∈ rows, dax.get? p ≠ some r.2.1) →
    st'.indices.get? p = st.indices.get? p := by
  intro rows
  induction rows with
  | nil =>
    intro st st' p hok _
    simp only [mpFold] at hok
    injection hok with h
    rw [h]
  | cons r rest ih =>
    intro st st' p hok hp
    simp only [mpFold] at hok
    cases hmp : mpStep dom c e f dax st r.1 r.2.1 r.2.2 with
    | error err => rw [hmp] at hok; simp at hok
    | ok st₁ =>
      rw [hmp] at hok
      have h₁ := mpStep_frame_indices hmp (hp r (List.mem_cons_self _ _))
      have h₂ := ih hok (fun q hq => hp q (List.mem_cons_of_mem _ hq))
      rw [h₂, h₁]

theorem mpFold_frame_ind {dom : DomainModel} {c e f : Bool} {dax : List AxisId} :
    ∀ {rows : List (Nat × AxisId × List Nat)} {st st' : MPState} {j : Nat},
    mpFold dom c e f dax st rows = .ok st' →
    (∀ r ∈ rows, r.1 ≠ j) →
    st'.ind.get? j = st.ind.get? j := by
  intro rows
  induction rows with
  | nil =>
    intro st st' j hok _
    simp only [mpFold] at hok
    injection hok with h
    rw [h]
  | cons r rest ih =>
    intro st st' j hok hj
    simp only [mpFold] at hok
    cases hmp : mpStep dom c e f dax st r.1 r.2.1 r.2.2 with
    | error err => rw [hmp] at hok; simp at hok
    | ok st₁ =>
      rw [hmp] at hok
      have h₁ := mpStep_frame_ind hmp (hj r (List.mem_cons_self _ _))
      have h₂ := ih hok (fun q hq => hj q (List.mem_cons_of_mem _ hq))
      rw [h₂, h₁]

theorem mpFold_lengths {dom : DomainModel} {c e f : Bool} {dax : List AxisId} :
    ∀ {rows : List (Nat × AxisId × List Nat)} {st st' : MPState},
    mpFold dom c e f dax st rows = .ok st' →
    st'.indices.length = st.indices.length ∧ st'.ind.length = st.ind.length := by
  intro rows
  induction rows with
  | nil =>
    intro st st' hok
    simp only [mpFold] at hok
    injection hok with h
    rw [h]; exact ⟨rfl, rfl⟩
  | cons r rest ih =>
    intro st st' hok
    simp only [mpFold] at hok
    cases hmp : mpStep dom c e f dax st r.1 r.2.1 r.2.2 with
    | error err => rw [hmp] at hok; simp at hok
    | ok st₁ =>
      rw [hmp] at hok
      have h₁ := mpStep_lengths hmp
      have h₂ := ih hok
      exact ⟨h₂.1.trans h₁.1, h₂.2.trans h₁.2⟩

theorem mpFold_write {dom : DomainModel} {c e f : Bool} {dax : List AxisId} :
    ∀ {rows : List (Nat × AxisId × List Nat)} {st st' : MPState}
      {i : Nat} {ax : AxisId} {row : List Nat},
    mpFold dom c e f dax st rows = .ok st' →
    (i, ax, row) ∈ rows →
    ax ∈ dax →
    (rows.map (fun r => r.2.1)).Nodup →
    st.indices.get? (pyIndex dax ax) = some Index.full →
    pyIndex dax ax < st.indices.length →
    st'.indices.get? (pyIndex dax ax) = some (mpTarget dom c e ax row) := by
  intro rows
  induction rows with
  | nil => intro st st' i ax row _ hmem; cases hmem
  | cons r rest ih =>
    intro st st' i ax row hok hmem hax hnodup hg hlen
    simp only [mpFold] at hok
    cases hmp : mpStep dom c e f dax st r.1 r.2.1 r.2.2 with
    | error err => rw [hmp] at hok; simp at hok
    | ok st₁ =>
      rw [hmp] at hok
      cases hmem with
      | head =>
        rcases mpStep_cases hmp with ⟨hnot, _⟩ | ⟨_, _, _, hwr⟩ | ⟨_, _, hng, _⟩
        · exact absurd hax hnot
        · have h₁ : st₁.indices.get? (pyIndex dax ax) = some (mpTarget dom c e ax row) := by
            rw [hwr]
            simp only [writeMP]
            exact List.get?_set_eq_of_lt _ hlen
          have hrest : ∀ q ∈ rest, dax.get? (pyIndex dax ax) ≠ some q.2.1 := by
            intro q hq hcontra
            have hq1 : dax.get? (pyIndex dax ax) = some ax := pyIndex_get? dax ax hax
            rw [hq1] at hcontra
            injection hcontra with hcontra
            have : ax ∈ rest.map (fun r => r.2.1) :=
              List.mem_map.2 ⟨q, hq, hcontra.symm⟩
            simp only [List.map_cons, List.nodup_cons] at hnodup
            exact hnodup.1 this
          rw [mpFold_frame_indices hok hrest, h₁]
        · exact absurd (getD_of_get? Index.full hg) hng
      | tail _ hmem =>
        have haxne : r.2.1 ≠ ax := by
          intro hcontra
          have : ax ∈ rest.map (fun r => r.2.1) :=
            List.mem_map.2 ⟨(i, ax, row), hmem, rfl⟩
          simp only [List.map_cons, List.nodup_cons] at hnodup
          exact hnodup.1 (hcontra ▸ this)
        have hg₁ : st₁.indices.get? (pyIndex dax ax) = some Index.full := by
          have hfr := mpStep_frame_indices hmp (p := pyIndex dax ax) ?_
          · rw [hfr, hg]
          · rw [pyIndex_get? dax ax hax]
            intro hcontra
            injection hcontra with hcontra
            exact haxne hcontra.symm
        have hlen₁ : pyIndex dax ax < st₁.indices.length := by
          rw [(mpStep_lengths hmp).1]; exact hlen
        have hnodup' : (rest.map (fun r => r.2.1)).Nodup := by
          simp only [List.map_cons, List.nodup_cons] at hnodup
          exact hnodup.2
        exact ih hok hmem hax hnodup' hg₁ hlen₁

theorem mpFold_ind_write {dom : DomainModel} {c e f : Bool} {dax : List AxisId} :
    ∀ {rows : List (Nat × AxisId × List Nat)} {st st' : MPState}
      {i : Nat} {ax : AxisId} {row : List Nat},
    mpFold dom c e f dax st rows = .ok st' →
    (i, ax, row) ∈ rows →
    (rows.map Prod.fst).Nodup →
    (rows.map (fun r => r.2.1)).Nodup →
    st.ind.get? i = some row →
    i < st.ind.length →
    (ax ∈ dax → st.indices.get? (pyIndex dax ax) = some Index.full) →
    st'.ind.get? i =
      some (if ax ∈ dax then row.map (fun x => x - mpStart c e row) else row) := by
  intro rows
  induction rows with
  | nil => intro st st' i ax row _ hmem; cases hmem
  | cons r rest ih =>
    intro st st' i ax row hok hmem hid hnodup hst hi hg
    simp only [mpFold] at hok
    cases hmp : mpStep dom c e f dax st r.1 r.2.1 r.2.2 with
    | error err => rw [hmp] at hok; simp at hok
    | ok st₁ =>
      rw [hmp] at hok
      cases hmem with
      | head =>
        have hrest : ∀ q ∈ rest, q.1 ≠ i := by
          intro q hq hcontra
          have : i ∈ rest.map Prod.fst := List.mem_map.2 ⟨q, hq, hcontra⟩
          simp only [List.map_cons, List.nodup_cons] at hid
          exact hid.1 this
        by_cases hax : ax ∈ dax
        · rcases mpStep_cases hmp with ⟨hnot, _⟩ | ⟨_, _, _, hwr⟩ | ⟨_, _, hng, _⟩
          · exact absurd hax hnot
          · have h₁ : st₁.ind.get? i =
                some (row.map (fun x => x - mpStart c e row)) := by
              rw [hwr]
              simp only [writeMP]
              exact List.get?_set_eq_of_lt _ hi
            rw [mpFold_frame_ind hok hrest, h₁, if_pos hax]
          · exact absurd (getD_of_get? Index.full (hg hax)) hng
        · rcases mpStep_cases hmp with ⟨_, hid₁⟩ | ⟨hin, _⟩ | ⟨hin, _⟩
          · rw [mpFold_frame_ind hok hrest, hid₁, if_neg hax]
            exact hst
          · exact absurd hin hax
          · exact absurd hin hax
      | tail _ hmem =>
        have hine : r.1 ≠ i := by
          intro hcontra
          have : i ∈ rest.map Prod.fst := List.mem_map.2 ⟨(i, ax, row), hmem, rfl⟩
          simp only [List.map_cons, List.nodup_cons] at hid
          exact hid.1 (hcontra ▸ this)
        have haxne : r.2.1 ≠ ax := by
          intro hcontra
          have : ax ∈ rest.map (fun r => r.2.1) :=
            List.mem_map.2 ⟨(i, ax, row), hmem, rfl⟩
          simp only [List.map_cons, List.nodup_cons] at hnodup
          exact hnodup.1 (hcontra ▸ this)
        have hst₁ : st₁.ind.get? i = some row := by
          rw [mpStep_frame_ind hmp hine]; exact hst
        have hi₁ : i < st₁.ind.length := by
          rw [(mpStep_lengths hmp).2]; exact hi
        have hg₁ : ax ∈ dax → st₁.indices.get? (pyIndex dax ax) = some Index.full := by
          intro hax
          have hfr := mpStep_frame_indices hmp (p := pyIndex dax ax) ?_
          · rw [hfr]; exact hg hax
          · rw [pyIndex_get? dax ax hax]
            intro hcontra
            injection hcontra with hcontra
            exact haxne hcontra.symm
        have hid' : (rest.map Prod.fst).Nodup := by
          simp only [List.map_cons, List.nodup_cons] at hid
          exact hid.2
        have hnodup' : (rest.map (fun r => r.2.1)).Nodup := by
          simp only [List.map_cons, List.nodup_cons] at hnodup
          exact hnodup.2
        exact ih hok hmem hid' hnodup' hst₁ hi₁ hg₁

theorem mpFold_msize {dom : DomainModel} {c e f : Bool} {dax : List AxisId} :
    ∀ {rows : List (Nat × AxisId × List Nat)} {st st' : MPState},
    mpFold dom c e f dax st rows = .ok st' →
    (rows.map (fun r => r.2.1)).Nodup →
    (∀ r ∈ rows, r.2.1 ∈ dax →
      st.indices.get? (pyIndex dax r.2.1) = some Index.full) →
    st'.masked_subspace_size =
      st.masked_subspace_size *
        (rows.map (fun r =>
          if r.2.1 ∈ dax then mpSizeOf dom c e r.2.1 r.2.2 else 1)).prod := by
  intro rows
  induction rows with
  | nil =>
    intro st st' hok _ _
    simp only [mpFold] at hok
    injection hok with h
    rw [← h]; simp
  | cons r rest ih =>
    intro st st' hok hnodup hg
    simp only [mpFold] at hok
    cases hmp : mpStep dom c e f dax st r.1 r.2.1 r.2.2 with
    | error err => rw [hmp] at hok; simp at hok
    | ok st₁ =>
      rw [hmp] at hok
      have hnodup' : (rest.map (fun r => r.2.1)).Nodup := by
        simp only [List.map_cons, List.nodup_cons] at hnodup
        exact hnodup.2
      have hg₁ : ∀ q ∈ rest, q.2.1 ∈ dax →
          st₁.indices.get? (pyIndex dax q.2.1) = some Index.full := by
        intro q hq hqin
        have hqne : r.2.1 ≠ q.2.1 := by
          intro hcontra
          have : q.2.1 ∈ rest.map (fun r => r.2.1) := List.mem_map.2 ⟨q, hq, rfl⟩
          simp only [List.map_cons, List.nodup_cons] at hnodup
          exact hnodup.1 (hcontra ▸ this)
        have hfr := mpStep_frame_indices hmp (p := pyIndex dax q.2.1) ?_
        · rw [hfr]; exact hg q (List.mem_cons_of_mem _ hq) hqin
        · rw [pyIndex_get? dax q.2.1 hqin]
          intro hcontra
          injection hcontra with hcontra
          exact hqne hcontra.symm
      have hrec := ih hok hnodup' hg₁
      by_cases hax : r.2.1 ∈ dax
      · rcases mpStep_cases hmp with ⟨hnot, _⟩ | ⟨_, _, _, hwr⟩ | ⟨_, _, hng, _⟩
        · exact absurd hax hnot
        · have h₁ : st₁.masked_subspace_size =
              st.masked_subspace_size * mpSizeOf dom c e r.2.1 r.2.2 := by
            rw [hwr]; rfl
          rw [hrec, h₁]
          simp [if_pos hax, Nat.mul_assoc]
        · exact absurd (getD_of_get? Index.full (hg r (List.mem_cons_self _ _) hax)) hng
      · rcases mpStep_cases hmp with ⟨_, hst₁⟩ | ⟨hin, _⟩ | ⟨hin, _⟩
        · rw [hrec, hst₁]
          simp [if_neg hax]
        · exact absurd hin hax
        · exact absurd hin hax

theorem enum_axes_eq {α β : Type} (l : List (α × β)) :
    l.enum.map (fun r => r.2.1) = l.map Prod.fst := by
  have h : l.enum.map (fun r => r.2.1) = (l.enum.map Prod.snd).map Prod.fst := by
    rw [List.map_map]; rfl
  rw [h, enum_map_snd]

theorem enum_map_val {α β : Type} (l : List α) (g : α → β) :
    l.enum.map (fun r => g r.2) = l.map g := by
  have h : l.enum.map (fun r => g r.2) = (l.enum.map Prod.snd).map g := by
    rw [List.map_map]; rfl
  rw [h, enum_map_snd]

/-- C1.  For an axis group whose matched positions reached the mode
policy, every axis of the group that the data spans (and whose slot was
still unrestricted, as the resolver arranges) receives: under compress
the sorted list of unique matched positions of that axis; under envelope
the contiguous slice `[min, max + 1)`; under full the whole-axis slice
`[0, axis_size)`.  The modes are read in the dispatch order of the
source (`if compress / elif envelope / elif full`). -/
theorem indices_C1_mode_policy (dom : DomainModel) (c e f : Bool)
    (dax item_axes : List AxisId) (ind : List (List Nat)) (indices0 : List Index)
    (mp : MPState) (i : Nat) (ax : AxisId) (row : List Nat)
    (hrun : modePolicy dom c e f dax item_axes ind indices0 = .ok mp)
    (hnodup : item_axes.Nodup)
    (hi : item_axes.get? i = some ax)
    (hr : ind.get? i = some row)
    (hax : ax ∈ dax)
    (hg : indices0.get? (pyIndex dax ax) = some Index.full)
    (hlen : pyIndex dax ax < indices0.length) :
    mp.indices.get? (pyIndex dax ax) =
      some (if c then Index.ints ((specUniqueSorted row).map Int.ofNat)
            else if e then
              Index.slice ⟨some (rowMin row : Int), some ((rowMax row + 1 : Nat) : Int), none⟩
            else Index.slice ⟨some 0, some ((axisSize dom ax : Nat) : Int), none⟩) := by
  have hzip := get?_zip_of hi hr
  have hmem : (i, ax, row) ∈ (item_axes.zip ind).enum :=
    List.mk_mem_enum_iff_get?.2 hzip
  have hnodup' : ((item_axes.zip ind).enum.map (fun r => r.2.1)).Nodup := by
    rw [enum_axes_eq]
    exact List.Nodup.sublist (map_fst_zip_sublist _ _) hnodup
  have h := mpFold_write hrun hmem hax hnodup' hg hlen
  rw [h]
  rw [show specUniqueSorted row = sortedUnique row from (sortedUnique_eq_spec row).symm]
  rfl

/-- Witness for C1: the compress run on the sample domain, group axes
`(ax0, ax1)`, rows `[1,3,1]` and `[2,2,6]`, fixes `sorted(set([1,3,1]))
= [1, 3]` for axis `ax0`. -/
theorem indices_C1_witness :
    modePolicy sampleDom true false false ["ax0", "ax1"] ["ax0", "ax1"]
      [[1, 3, 1], [2, 2, 6]] [Index.full, Index.full] = .ok mpWitnessC ∧
    mpWitnessC.indices.get? (pyIndex ["ax0", "ax1"] "ax0") =
      some (Index.ints ((specUniqueSorted [1, 3, 1]).map Int.ofNat)) := by
  have hrun : modePolicy sampleDom true false false ["ax0", "ax1"] ["ax0", "ax1"]
      [[1, 3, 1], [2, 2, 6]] [Index.full, Index.full] = .ok mpWitnessC := by rfl
  have h := indices_C1_mode_policy sampleDom true false false ["ax0", "ax1"]
    ["ax0", "ax1"] [[1, 3, 1], [2, 2, 6]] [Index.full, Index.full] mpWitnessC
    0 "ax0" [1, 3, 1] hrun (by decide) rfl rfl (by decide) rfl (by decide)
  exact ⟨hrun, by simpa using h⟩

/-- C3.  For an axis group whose matched positions reached the mode
policy: the envelope volume accumulated by the policy is the product
over the group's in-data axes of the per-axis sizes it fixed
(`max - min + 1` under compress/envelope, the axis size under full); an
auxiliary mask is built for the group exactly when the number of matched
positions is strictly smaller than that product; and before the mask is
built every matched position is offset by the start chosen for its axis
(the per-axis minimum under compress/envelope, zero under full). -/
theorem indices_C3_mask_policy (dom : DomainModel) (c e f : Bool)
    (dax item_axes : List AxisId) (ind : List (List Nat)) (indices0 : List Index)
    (gst : GroupState) (mp : MPState) (n : Nat)
    (hrun : modePolicy dom c e f dax item_axes ind indices0 = .ok mp)
    (hnodup : item_axes.Nodup)
    (hlen : ind.length = item_axes.length)
    (hne : ind ≠ [])
    (hcols : ∀ r ∈ ind, r.length = n)
    (hguards : ∀ ax ∈ item_axes, ax ∈ dax →
      indices0.get? (pyIndex dax ax) = some Index.full) :
    mp.masked_subspace_size =
      ((item_axes.zip ind).map (fun p =>
        if p.1 ∈ dax then mpSizeOf dom c e p.1 p.2 else 1)).prod ∧
    (∀ i ax row, item_axes.get? i = some ax → ind.get? i = some row →
      mp.ind.get? i =
        some (if ax ∈ dax then row.map (fun x => x - mpStart c e row) else row)) ∧
    (maskDecision c gst mp).auxiliary_mask =
      gst.auxiliary_mask ++
        (if n < mp.masked_subspace_size then [⟨mp.mask_shape, mp.ind, c⟩] else []) := by
  have hnodupAx : ((item_axes.zip ind).enum.map (fun r => r.2.1)).Nodup := by
    rw [enum_axes_eq]
    exact List.Nodup.sublist (map_fst_zip_sublist _ _) hnodup
  have hnodupId : ((item_axes.zip ind).enum.map Prod.fst).Nodup :=
    List.nodup_enum_map_fst _
  have hmsize : mp.masked_subspace_size =
      ((item_axes.zip ind).map (fun p =>
        if p.1 ∈ dax then mpSizeOf dom c e p.1 p.2 else 1)).prod := by
    have hg' : ∀ r ∈ (item_axes.zip ind).enum, r.2.1 ∈ dax →
        indices0.get? (pyIndex dax r.2.1) = some Index.full := by
      intro r hr hrin
      have hzip : (item_axes.zip ind).get? r.1 = some r.2 :=
        List.mem_enum_iff_get?.1 hr
      have hfst : item_axes.get? r.1 = some r.2.1 := (get?_of_zip hzip).1
      exact hguards r.2.1 (List.get?_mem hfst) hrin
    have h := mpFold_msize hrun hnodupAx hg'
    rw [h]
    have hover : ((item_axes.zip ind).enum.map (fun r =>
        if r.2.1 ∈ dax then mpSizeOf dom c e r.2.1 r.2.2 else 1)) =
        ((item_axes.zip ind).map (fun p =>
          if p.1 ∈ dax then mpSizeOf dom c e p.1 p.2 else 1)) :=
      enum_map_val (item_axes.zip ind)
        (fun p => if p.1 ∈ dax then mpSizeOf dom c e p.1 p.2 else 1)
    rw [hover]
    simp
  have hindw : ∀ i ax row, item_axes.get? i = some ax → ind.get? i = some row →
      mp.ind.get? i =
        some (if ax ∈ dax then row.map (fun x => x - mpStart c e row) else row) := by
    intro i ax row hi hr
    have hzip := get?_zip_of hi hr
    have hmem : (i, ax, row) ∈ (item_axes.zip ind).enum :=
      List.mk_mem_enum_iff_get?.2 hzip
    have hilt : i < ind.length := by
      rcases List.get?_eq_some.1 hr with ⟨h, _⟩
      exact h
    exact mpFold_ind_write hrun hmem hnodupId hnodupAx hr hilt
      (fun hax => hguards ax (List.get?_mem hi) hax)
  refine ⟨hmsize, hindw, ?_⟩
  have hn : nMatches mp.ind = n := by
    cases hind : ind with
    | nil => exact absurd hind hne
    | cons row0 rest =>
      have hia : item_axes ≠ [] := by
        intro hcontra
        rw [hcontra, hind] at hlen
        simp at hlen
      cases hiax : item_axes with
      | nil => exact absurd hiax hia
      | cons ax0 arest =>
        have h0 := hindw 0 ax0 row0 (by rw [hiax]; rfl) (by rw [hind]; rfl)
        have hlen0 : row0.length = n := hcols row0 (by rw [hind]; exact List.mem_cons_self _ _)
        have hval : mp.ind.headD [] =
            (if ax0 ∈ dax then row0.map (fun x => x - mpStart c e row0) else row0) :=
          headD_of_get? h0
        unfold nMatches
        rw [hval]
        by_cases hax : ax0 ∈ dax
        · rw [if_pos hax, List.length_map, hlen0]
        · rw [if_neg hax, hlen0]
  unfold maskDecision
  rw [hn]
  by_cases hlt : n < mp.masked_subspace_size
  · rw [if_pos hlt, if_pos hlt]
  · rw [if_neg hlt, if_neg hlt]
    simp

/-- Witness for C3: the envelope run on the sample domain builds a mask
because only 3 positions are matched inside the 3 by 5 envelope, and the
offset rows are expressed relative to the envelope. -/
theorem indices_C3_witness :
    modePolicy sampleDom false true false ["ax0", "ax1"] ["ax0", "ax1"]
      [[1, 3, 1], [2, 2, 6]] [Index.full, Index.full] = .ok mpWitnessE ∧
    mpWitnessE.masked_subspace_size =
      (((["ax0", "ax1"] : List AxisId).zip [[1, 3, 1], [2, 2, 6]]).map (fun p =>
        if p.1 ∈ (["ax0", "ax1"] : List AxisId) then
          mpSizeOf sampleDom false true p.1 p.2 else 1)).prod ∧
    (maskDecision false ⟨[Index.full, Index.full], []⟩ mpWitnessE).auxiliary_mask =
      [] ++ (if 3 < mpWitnessE.masked_subspace_size then
        [⟨mpWitnessE.mask_shape, mpWitnessE.ind, false⟩] else []) := by
  have hrun : modePolicy sampleDom false true false ["ax0", "ax1"] ["ax0", "ax1"]
      [[1, 3, 1], [2, 2, 6]] [Index.full, Index.full] = .ok mpWitnessE := by rfl
  have h := indices_C3_mask_policy sampleDom false true false ["ax0", "ax1"]
    ["ax0", "ax1"] [[1, 3, 1], [2, 2, 6]] [Index.full, Index.full]
    ⟨[Index.full, Index.full], []⟩ mpWitnessE 3 hrun (by decide) rfl
    (by decide) (by decide) (by decide)
  exact ⟨hrun, h.1, h.2.2⟩

/-- C2.  For a one-axis group whose condition is a within or without
Query, whose backing construct is a dimension coordinate and whose axis
is cyclic, the resolver returns the step-1 wrap slice computed by the
CASE 2 start/stop arithmetic, and that arithmetic follows the claimed
case analysis on the span, the anchor rolls and the axis size. -/
theorem indices_C2_cyclic_wrap (dom : DomainModel) (e : Bool) (axis : AxisId)
    (key : Nat) (it : Construct) (q : Query) (period : Int)
    (hq : q.op = QueryOp.wi ∨ q.op = QueryOp.wo)
    (hdim : it.constructType = "dimension_coordinate")
    (hcyc : axis ∈ dom.cyclic)
    (hper : it.period = some period) :
    process1d dom e false axis (some (key, it)) (.query q) =
      .ok (Index.slice
        ⟨some (wrapStartStop q.op q.val0 q.val1 it.increasing (it.size : Int) period
            (dom.anchorRoll axis) (dom.anchorRollFlip axis)).1,
         some (wrapStartStop q.op q.val0 q.val1 it.increasing (it.size : Int) period
            (dom.anchorRoll axis) (dom.anchorRollFlip axis)).2,
         some 1⟩, none) ∧
    (∀ (v0 v1 : Int) (inc : Bool) (size per : Int) (roll rollFlip : Int → Int),
      wrapSpecCases q.op v0 v1 inc size per roll rollFlip) := by
  constructor
  · rcases hq with h | h <;>
      simp [process1d, Cond.isExplicitIndex, h, hdim, hcyc, hper]
  · intro v0 v1 inc size per roll rollFlip
    simp only [wrapSpecCases, wrapStartStop]
    refine ⟨?_, ?_, ?_⟩
    · intro hge
      rw [if_pos hge]
      rcases hq with h | h <;> rw [h] <;> simp
    · intro hlt hab
      rw [if_neg (not_le.2 hlt), if_pos hab]
      rcases hq with h | h <;> rw [h] <;>
        by_cases hb : roll (if inc then v1 else v0) = roll (if inc then v0 else v1) <;>
        simp [hb]
    · intro hlt hab
      rw [if_neg (not_le.2 hlt), if_neg hab]

/-- Witness for C2: the general within branch on the sample cyclic
longitude (anchor rolls 6 and 1, size 8, period 360) yields the wrap
slice `slice(-6, -7, 1)`. -/
theorem indices_C2_witness :
    process1d sampleDom false false "ax1" (some (1, lonC))
      (.query ⟨QueryOp.wi, 100, 200⟩) =
      .ok (Index.slice ⟨some (-6), some (-7), some 1⟩, none) ∧
    wrapStartStop QueryOp.wi 100 200 true 8 360 (sampleDom.anchorRoll "ax1")
      (sampleDom.anchorRollFlip "ax1") = (-6, -7) := by
  have h := indices_C2_cyclic_wrap sampleDom false "ax1" 1 lonC
    ⟨QueryOp.wi, 100, 200⟩ 360 (Or.inl rfl) rfl (by decide) rfl
  constructor
  · rw [h.1]
    simp only [Except.ok.injEq]
    decide
  · decide

/-! ## Grouping lemmas -/

theorem mem_insSorted {x a : AxisId} {l : List AxisId} :
    x ∈ insSorted a l ↔ x = a ∨ x ∈ l := by
  induction l with
  | nil => simp [insSorted]
  | cons y ys ih =>
    by_cases hle : axisLeB a y
    · simp [insSorted, hle]
    · simp only [insSorted, hle, Bool.false_eq_true, if_false, List.mem_cons, ih]
      tauto

theorem mem_sortList {x : AxisId} {l : List AxisId} :
    x ∈ sortList l ↔ x ∈ l := by
  induction l with
  | nil => simp [sortList]
  | cons y ys ih =>
    have h : sortList (y :: ys) = insSorted y (sortList ys) := rfl
    rw [h, mem_insSorted, ih, List.mem_cons]

theorem setUpdate_nodup : ∀ {axs s : List AxisId}, s.Nodup → (setUpdate s axs).Nodup := by
  intro axs
  induction axs with
  | nil => intro s h; exact h
  | cons a rest ih =>
    intro s h
    simp only [setUpdate, List.foldl]
    by_cases hmem : a ∈ s
    · rw [if_pos hmem]
      exact ih h
    · rw [if_neg hmem]
      refine ih ?_
      simp [List.nodup_append, h, hmem]

theorem setUpdate_mem : ∀ {axs s : List AxisId} {x : AxisId},
    x ∈ setUpdate s axs ↔ x ∈ s ∨ x ∈ axs := by
  intro axs
  induction axs with
  | nil => intro s x; simp [setUpdate]
  | cons a rest ih =>
    intro s x
    simp only [setUpdate, List.foldl]
    by_cases hmem : a ∈ s
    · rw [if_pos hmem]
      have := ih (s := s) (x := x)
      simp only [setUpdate] at this
      rw [this, List.mem_cons]
      constructor
      · rintro (h | h)
        · exact Or.inl h
        · exact Or.inr (Or.inr h)
      · rintro (h | h | h)
        · exact Or.inl h
        · exact Or.inl (h ▸ hmem)
        · exact Or.inr h
    · rw [if_neg hmem]
      have := ih (s := s ++ [a]) (x := x)
      simp only [setUpdate] at this
      rw [this]
      simp only [List.mem_append, List.mem_singleton, List.mem_cons]
      tauto

theorem insertGroup_keys_of_mem {parsed : List (List AxisId × List Entry)}
    {k : List AxisId} {e : Entry} (h : parsed.any (fun p => p.1 = k)) :
    (insertGroup parsed k e).map (fun g => g.1.length) =
      parsed.map (fun g => g.1.length) := by
  simp only [insertGroup, if_pos h, List.map_map]
  refine List.map_congr_left ?_
  intro p _
  by_cases hp : p.1 = k
  · simp [hp]
  · simp [hp]

theorem parse_inv_aux (dom : DomainModel) :
    ∀ (kws : List (Identity × Cond)) (st pst : ParseState),
    exFold (parseStep dom) st kws = .ok pst →
    st.n_axes = (st.parsed.map (fun g => g.1.length)).sum →
    st.unique_axes.Nodup →
    (pst.n_axes = (pst.parsed.map (fun g => g.1.length)).sum ∧
     pst.unique_axes.Nodup ∧
     (∀ a, a ∈ pst.unique_axes ↔ (a ∈ st.unique_axes ∨
        ∃ kv ∈ kws, ∃ axs it, resolveIdentity dom kv.1 = .ok (axs, it) ∧ a ∈ axs))) := by
  intro kws
  induction kws with
  | nil =>
    intro st pst hok hsum hnd
    simp only [exFold] at hok
    injection hok with h
    subst h
    exact ⟨hsum, hnd, fun a => by simp⟩
  | cons kv rest ih =>
    intro st pst hok hsum hnd
    simp only [exFold] at hok
    cases hri : resolveIdentity dom kv.1 with
    | error err =>
      rw [show parseStep dom st kv = .error err by simp [parseStep, hri]] at hok
      simp at hok
    | ok axesit =>
      have hstep : parseStep dom st kv =
          .ok { parsed := insertGroup st.parsed (sortList axesit.1)
                  ⟨axesit.1, axesit.2, kv.2⟩,
                unique_axes := setUpdate st.unique_axes (sortList axesit.1),
                n_axes := if st.parsed.any (fun p => p.1 = sortList axesit.1) then
                    st.n_axes
                  else st.n_axes + (sortList axesit.1).length } := by
        simp [parseStep, hri]
      rw [hstep] at hok
      have hsum' : (if st.parsed.any (fun p => p.1 = sortList axesit.1) then st.n_axes
            else st.n_axes + (sortList axesit.1).length) =
          ((insertGroup st.parsed (sortList axesit.1)
            ⟨axesit.1, axesit.2, kv.2⟩).map (fun g => g.1.length)).sum := by
        by_cases hmem : st.parsed.any (fun p => p.1 = sortList axesit.1)
        · rw [if_pos hmem, insertGroup_keys_of_mem hmem, ← hsum]
        · rw [if_neg hmem]
          simp only [insertGroup, if_neg hmem]
          rw [List.map_append, List.sum_append, ← hsum]
          simp
      have hnd' : (setUpdate st.unique_axes (sortList axesit.1)).Nodup :=
        setUpdate_nodup hnd
      have hrec := ih _ pst hok hsum' hnd'
      refine ⟨hrec.1, hrec.2.1, ?_⟩
      intro a
      rw [hrec.2.2 a]
      simp only [setUpdate_mem, mem_sortList]
      constructor
      · rintro ((h | h) | h)
        · exact Or.inl h
        · exact Or.inr ⟨kv, List.mem_cons_self _ _, axesit.1, axesit.2, by
            rw [hri], h⟩
        · rcases h with ⟨kv', hkv', axs, it, hres, hmem⟩
          exact Or.inr ⟨kv', List.mem_cons_of_mem _ hkv', axs, it, hres, hmem⟩
      · rintro (h | ⟨kv', hkv', axs, it, hres, hmem⟩)
        · exact Or.inl (Or.inl h)
        · rcases List.mem_cons.1 hkv' with h' | h'
          · subst h'
            rw [hri] at hres
            injection hres with hres
            have haxs : axesit.1 = axs := congrArg Prod.fst hres
            rw [← haxs] at hmem
            exact Or.inl (Or.inr hmem)
          · exact Or.inr ⟨kv', h', axs, it, hres, hmem⟩

/-- C6.  Resolution raises the axis-group-conflict error whenever the
count of unique axis ids claimed falls short of the total count claimed
across distinct groups, and a group holding more conditions than axes
raises the per-group conflict error; the counters really are the
cardinality of the claimed-axis set and the per-group totals. -/
theorem indices_C6_conflicts (dom : DomainModel) (args : List (List String))
    (kwargs : List (Identity × Cond)) :
    (∀ mode dax pst, parseArgs args = .ok (mode, dax) →
      parseKwargs dom kwargs = .ok pst →
      pst.unique_axes.length < pst.n_axes →
      resolveIndices dom args kwargs =
        .error (.valueError "Multiple constructs with incompatible domain axes")) ∧
    (∀ pst, parseKwargs dom kwargs = .ok pst →
      pst.n_axes = (pst.parsed.map (fun g => g.1.length)).sum ∧
      pst.unique_axes.Nodup ∧
      (∀ a, a ∈ pst.unique_axes ↔ ∃ kv ∈ kwargs, ∃ axs it,
        resolveIdentity dom kv.1 = .ok (axs, it) ∧ a ∈ axs)) ∧
    (∀ (c e f : Bool) (dax : List AxisId) (gst : GroupState)
        (grp : List AxisId × List Entry),
      grp.2.length > grp.1.length →
      processGroup dom c e f dax gst grp =
        .error (.valueError "Cannot specify more conditions than axes for a group")) := by
  refine ⟨?_, ?_, ?_⟩
  · intro mode dax pst hpa hpk hlt
    simp only [resolveIndices, hpa, hpk]
    rw [if_pos hlt]
  · intro pst hpk
    have h := parse_inv_aux dom kwargs ⟨[], [], 0⟩ pst hpk rfl List.nodup_nil
    refine ⟨h.1, h.2.1, ?_⟩
    intro a
    rw [h.2.2 a]
    simp
  · intro c e f dax gst grp hgt
    simp only [processGroup]
    rw [if_pos hgt]

/-- Witness for C6: a 1-d coordinate on `ax0` and a 2-d coordinate on
`(ax0, ax1)` claim overlapping axes (2 unique ids against 3 claimed),
and a two-condition group over one axis raises the per-group error. -/
theorem indices_C6_witness :
    resolveIndices sampleDom [[], ["ax0", "ax1"]]
      [("lat", Cond.scalar 1), ("aux2d", Cond.scalar 2)] =
      .error (.valueError "Multiple constructs with incompatible domain axes") ∧
    processGroup sampleDom true false false ["ax0", "ax1"]
      ⟨[Index.full, Index.full], []⟩
      (["ax0"], [⟨["ax0"], some (0, latC), Cond.scalar 1⟩,
                 ⟨["ax0"], some (0, latC), Cond.scalar 2⟩]) =
      .error (.valueError "Cannot specify more conditions than axes for a group") := by
  have h := indices_C6_conflicts sampleDom [[], ["ax0", "ax1"]]
    [("lat", Cond.scalar 1), ("aux2d", Cond.scalar 2)]
  constructor
  · exact h.1 [] ["ax0", "ax1"]
      { parsed := [(["ax0"], [⟨["ax0"], some (0, latC), Cond.scalar 1⟩]),
                   (["ax0", "ax1"], [⟨["ax0", "ax1"], some (2, aux2dC), Cond.scalar 2⟩])],
        unique_axes := ["ax0", "ax1"], n_axes := 3 }
      (by rfl) (by rfl) (by decide)
  · exact h.2.2 true false false ["ax0", "ax1"] ⟨[Index.full, Index.full], []⟩
      (["ax0"], [⟨["ax0"], some (0, latC), Cond.scalar 1⟩,
                 ⟨["ax0"], some (0, latC), Cond.scalar 2⟩]) (by decide)

/-- Counterexample for C7 as stated: supplying both mode tokens
`envelope` and `full` does not raise a usage error — the resolution
completes, with two mode flags simultaneously active, so the modes are
not mutually exclusive and no more-than-one-token check exists. -/
theorem indices_C7_counterexample :
    resolveIndices sampleDom [["envelope", "full"], ["ax0", "ax1"]] [] =
      .ok (.plain [Index.slice ⟨some 0, some 5, some 1⟩,
                   Index.slice ⟨some 0, some 8, some 1⟩]) ∧
    modeFlags ["envelope", "full"] = (false, true, true) ∧
    ¬ ((false : Bool) = true ∧ (true : Bool) = false ∧ (true : Bool) = false ∨
       (false : Bool) = false ∧ (true : Bool) = true ∧ (true : Bool) = false ∨
       (false : Bool) = false ∧ (true : Bool) = false ∧ (true : Bool) = true) := by
  refine ⟨by rfl, by rfl, by decide⟩

/-- C7 amended.  The three mode flags are independent membership tests
on the mode tuple (`compress` additionally defaults to on when neither
`envelope` nor `full` is requested, so at least one flag is always
active), and the only usage error of the argument parser is an argument
count other than one or two; several tokens may activate several flags
at once. -/
theorem indices_C7_mode_amended (args : List (List String)) (mode dax : List String) :
    exOk (parseArgs args) = (decide (1 ≤ args.length) && decide (args.length ≤ 2)) ∧
    parseArgs [dax] = .ok ([], dax) ∧
    parseArgs [mode, dax] = .ok (mode, dax) ∧
    (modeFlags mode).1 = (mode.contains "compress"
      || !(mode.contains "envelope" || mode.contains "full")) ∧
    (modeFlags mode).2.1 = mode.contains "envelope" ∧
    (modeFlags mode).2.2 = mode.contains "full" ∧
    ((modeFlags mode).1 || (modeFlags mode).2.1 || (modeFlags mode).2.2) = true ∧
    modeFlags [] = (true, false, false) := by
  refine ⟨?_, by rfl, by rfl, by rfl, by rfl, by rfl, ?_, by rfl⟩
  · match args with
    | [] => rfl
    | [a] => rfl
    | [a, b] => rfl
    | a :: b :: c :: rest =>
      simp [parseArgs, exOk, Nat.succ_le_succ_iff]
  · simp only [modeFlags]
    cases mode.contains "compress" <;> cases mode.contains "envelope" <;>
      cases mode.contains "full" <;> rfl

/-- Counterexample for C8 as stated: with matplotlib available, a
containment refinement over a group of three jointly-varying axes but
two conditions passes the guard (no error, although the shape is not
two axes), while a two-axis group with a single condition is rejected. -/
theorem indices_C8_counterexample :
    containsCheck true 2 3 2 = .ok () ∧ (3 : Nat) ≠ 2 ∧
    containsCheck true 1 2 1 =
      .error (.valueError "Cannot index for cell from 2-d coordinate objects") := by
  refine ⟨by rfl, by decide, by rfl⟩

/-- C8 amended.  The containment-refinement guard keys on the number of
conditions in the group, not on the number of axes: it passes exactly
when matplotlib is available, the group holds exactly two conditions and
the bounds count is not strictly between zero and two; when it fails
with the condition-count error, the message cites the group's axis
count. -/
theorem indices_C8_contains_amended (path : Bool) (n_items n_axes nBounds : Nat) :
    exOk (containsCheck path n_items n_axes nBounds) =
      (path && decide (n_items = 2)
        && !(decide (0 < nBounds) && decide (nBounds < n_items))) ∧
    containsCheck false n_items n_axes nBounds =
      .error (.importError
        "Must install matplotlib to create indices based on N-d constructs and a contains Query object") ∧
    (path = true → n_items ≠ 2 →
      containsCheck path n_items n_axes nBounds =
        .error (.valueError ("Cannot index for cell from " ++ toString n_axes
          ++ "-d coordinate objects"))) := by
  refine ⟨?_, by rfl, ?_⟩
  · cases path with
    | false => rfl
    | true =>
      by_cases h2 : n_items = 2
      · subst h2
        by_cases hb1 : 0 < nBounds <;> by_cases hb2 : nBounds < 2 <;>
          simp [containsCheck, exOk, hb1, hb2]
      · simp [containsCheck, exOk, h2]
  · intro hpath h2
    subst hpath
    simp [containsCheck, h2]

/-- Witness for C8 amended: the guard passes at two conditions with all
bounds present, and the message for a three-axis one-condition group
cites the axis count three. -/
theorem indices_C8_amended_witness :
    exOk (containsCheck true 2 2 0) = true ∧
    containsCheck true 1 3 1 =
      .error (.valueError "Cannot index for cell from 3-d coordinate objects") := by
  have h := indices_C8_contains_amended true 1 3 1
  refine ⟨by rfl, ?_⟩
  have h3 := h.2.2 rfl (by decide)
  rw [h3]
  rfl

/-- C10.  When the supplied identity matches a domain-axis id directly
(so there is no backing metadata construct) and the condition is not a
literal index expression, resolution raises the ValueError demanding a
construct with data, instead of attempting a relational or cyclic-wrap
match. -/
theorem indices_C10_axis_without_construct (dom : DomainModel)
    (args : List (List String)) (mode dax : List String) (id : Identity) (v : Cond)
    (hpa : parseArgs args = .ok (mode, dax))
    (hid : id ∈ dom.domain_axes.map Prod.fst)
    (hv : v.isExplicitIndex = false) :
    resolveIndices dom args [(id, v)] =
      .error (.valueError
        "Must specify a domain axis construct or a construct with data for which to create indices") := by
  have hri : resolveIdentity dom id = .ok ([id], none) := by
    simp [resolveIdentity, hid]
  have hsort : sortList [id] = [id] := rfl
  have hpk : parseKwargs dom [(id, v)] =
      .ok { parsed := [([id], [⟨[id], none, v⟩])],
            unique_axes := [id], n_axes := 1 } := by
    simp [parseKwargs, exFold, parseStep, hri, hsort, insertGroup, setUpdate]
  have hp1 : process1d dom (modeFlags mode).2.1 (modeFlags mode).2.2 id none v =
      .error (.valueError
        "Must specify a domain axis construct or a construct with data for which to create indices") := by
    simp [process1d, hv]
  have hpg : processGroup dom (modeFlags mode).1 (modeFlags mode).2.1 (modeFlags mode).2.2
      dax ⟨List.replicate dax.length Index.full, []⟩ ([id], [⟨[id], none, v⟩]) =
      .error (.valueError
        "Must specify a domain axis construct or a construct with data for which to create indices") := by
    simp [processGroup, hp1]
  simp only [resolveIndices, hpa, hpk]
  rw [if_neg (by simp)]
  simp [exFold, hpg]

/-- Witness for C10: asking for indices on the domain axis id `ax0`
with an equality Query raises the ValueError. -/
theorem indices_C10_witness :
    resolveIndices sampleDom [[], ["ax0", "ax1"]] [("ax0", .query ⟨QueryOp.eq, 3, 0⟩)] =
      .error (.valueError
        "Must specify a domain axis construct or a construct with data for which to create indices") := by
  exact indices_C10_axis_without_construct sampleDom [[], ["ax0", "ax1"]] [] ["ax0", "ax1"]
    "ax0" (.query ⟨QueryOp.eq, 3, 0⟩) rfl (by decide) rfl

/-! ## Group-loop structure lemmas -/

theorem get?_replicate_of_lt {α : Type} {a : α} : ∀ {n i : Nat}, i < n →
    (List.replicate n a).get? i = some a := by
  intro n
  induction n with
  | zero => intro i h; cases h
  | succ m ih =>
    intro i h
    cases i with
    | zero => rfl
    | succ j => exact ih (Nat.lt_of_succ_lt_succ h)

theorem normalizeIndex_full (n : Nat) :
    normalizeIndex n Index.full = Index.slice ⟨some 0, some (n : Int), some 1⟩ := by
  simp [normalizeIndex, Index.full]

theorem resolveIdentity_item_axes {dom : DomainModel} {idt : Identity}
    {axs : List AxisId} {kc : Nat × Construct}
    (h : resolveIdentity dom idt = .ok (axs, some kc)) : kc.2.axes = axs := by
  unfold resolveIdentity at h
  split at h
  · injection h with h
    injection h with h1 h2
    simp at h2
  · split at h
    · injection h with h
      injection h with h1 h2
      injection h2 with h2
      rw [← h2, h1]
    · simp at h

theorem insertGroup_forall {parsed : List (List AxisId × List Entry)}
    {k : List AxisId} {e : Entry} (P : List AxisId → Entry → Prop)
    (hparsed : ∀ g ∈ parsed, ∀ en ∈ g.2, P g.1 en)
    (he : P k e) :
    ∀ g ∈ insertGroup parsed k e, ∀ en ∈ g.2, P g.1 en := by
  intro g hg en hen
  by_cases hmem : parsed.any (fun p => p.1 = k)
  · simp only [insertGroup, if_pos hmem] at hg
    rcases List.mem_map.1 hg with ⟨g', hg', hmap⟩
    by_cases hk : g'.1 = k
    · rw [if_pos hk] at hmap
      subst hmap
      rcases List.mem_append.1 hen with h | h
      · exact hparsed g' hg' en h
      · simp only [List.mem_singleton] at h
        subst h
        simpa [hk] using he
    · rw [if_neg hk] at hmap
      subst hmap
      exact hparsed g' hg' en hen
  · simp only [insertGroup, if_neg hmem] at hg
    rcases List.mem_append.1 hg with h | h
    · exact hparsed g h en hen
    · simp only [List.mem_singleton] at h
      subst h
      simp only [List.mem_singleton] at hen
      subst hen
      exact he

theorem parseKwargs_entries_aux (dom : DomainModel) (K : Identity × Cond → Prop) :
    ∀ (kws : List (Identity × Cond)) (st pst : ParseState),
    exFold (parseStep dom) st kws = .ok pst →
    (∀ kv ∈ kws, K kv) →
    (∀ g ∈ st.parsed, ∀ en ∈ g.2,
      (∃ kv, K kv ∧ resolveIdentity dom kv.1 = .ok (en.axes, en.item) ∧ en.value = kv.2)
      ∧ g.1 = sortList en.axes) →
    (∀ g ∈ pst.parsed, ∀ en ∈ g.2,
      (∃ kv, K kv ∧ resolveIdentity dom kv.1 = .ok (en.axes, en.item) ∧ en.value = kv.2)
      ∧ g.1 = sortList en.axes) := by
  intro kws
  induction kws with
  | nil =>
    intro st pst hok _ hst
    simp only [exFold] at hok
    injection hok with h
    subst h
    exact hst
  | cons kv rest ih =>
    intro st pst hok hk hst
    simp only [exFold] at hok
    cases hri : resolveIdentity dom kv.1 with
    | error err =>
      rw [show parseStep dom st kv = .error err by simp [parseStep, hri]] at hok
      simp at hok
    | ok axesit =>
      have hstep : parseStep dom st kv =
          .ok { parsed := insertGroup st.parsed (sortList axesit.1)
                  ⟨axesit.1, axesit.2, kv.2⟩,
                unique_axes := setUpdate st.unique_axes (sortList axesit.1),
                n_axes := if st.parsed.any (fun p => p.1 = sortList axesit.1) then
                    st.n_axes
                  else st.n_axes + (sortList axesit.1).length } := by
        simp [parseStep, hri]
      rw [hstep] at hok
      refine ih _ pst hok (fun q hq => hk q (List.mem_cons_of_mem _ hq)) ?_
      refine insertGroup_forall
        (fun key en => (∃ kv, K kv ∧
          resolveIdentity dom kv.1 = .ok (en.axes, en.item) ∧ en.value = kv.2)
          ∧ key = sortList en.axes) hst ?_
      exact ⟨⟨kv, hk kv (List.mem_cons_self _ _), by rw [hri], rfl⟩, rfl⟩

theorem parseKwargs_entries {dom : DomainModel} {kwargs : List (Identity × Cond)}
    {pst : ParseState} (hok : parseKwargs dom kwargs = .ok pst) :
    ∀ g ∈ pst.parsed, ∀ en ∈ g.2,
      (∃ kv ∈ kwargs, resolveIdentity dom kv.1 = .ok (en.axes, en.item) ∧ en.value = kv.2)
      ∧ g.1 = sortList en.axes := by
  have h := parseKwargs_entries_aux dom (fun kv => kv ∈ kwargs) kwargs ⟨[], [], 0⟩ pst
    hok (fun _ hq => hq) (by intro g hg; cases hg)
  intro g hg en hen
  rcases h g hg en hen with ⟨⟨kv, hkv, hres, hval⟩, hkey⟩
  exact ⟨⟨kv, hkv, hres, hval⟩, hkey⟩

theorem mem_of_head? {α : Type} {l : List α} {a : α} (h : l.head? = some a) :
    a ∈ l := by
  cases l with
  | nil => simp at h
  | cons x xs =>
    injection h with h
    rw [h]
    exact List.mem_cons_self _ _

theorem rows_axes_mem {item_axes : List AxisId} {ind : List (List Nat)}
    {r : Nat × AxisId × List Nat} (h : r ∈ (item_axes.zip ind).enum) :
    r.2.1 ∈ item_axes := by
  have hz : (item_axes.zip ind).get? r.1 = some r.2 := List.mem_enum_iff_get?.1 h
  have hm := List.get?_mem hz
  exact (List.mem_zip hm).1

theorem maskDecision_indices (cFlag : Bool) (gst : GroupState) (mp : MPState) :
    (maskDecision cFlag gst mp).indices = mp.indices := by
  unfold maskDecision
  split <;> rfl

theorem processGroup_frame {dom : DomainModel} {c e f : Bool} {dax : List AxisId}
    {gst gst' : GroupState} {grp : List AxisId × List Entry} {p : Nat}
    (hok : processGroup dom c e f dax gst grp = .ok gst')
    (haxes : ∀ en ∈ grp.2, ∀ kc, en.item = some kc → kc.2.axes = en.axes)
    (hp : ∀ en ∈ grp.2, ∀ a ∈ en.axes, dax.get? p ≠ some a) :
    gst'.indices.get? p = gst.indices.get? p := by
  simp only [processGroup] at hok
  split at hok
  · simp at hok
  · split at hok
    · injection hok with h
      rw [← h]
    · rename_i e0 hhead
      have he0 : e0 ∈ grp.2 := mem_of_head? hhead
      split at hok
      · -- 1-d branch
        split at hok
        · simp at hok
        · rename_i axis haxis
          have haxmem : axis ∈ e0.axes := mem_of_head? haxis
          split at hok
          · simp at hok
          · rename_i index indq hpr
            have hwrite : (if axis ∈ dax then
                gst.indices.set (pyIndex dax axis) index else gst.indices).get? p =
                gst.indices.get? p := by
              by_cases hax : axis ∈ dax
              · rw [if_pos hax]
                have hpos : pyIndex dax axis ≠ p := by
                  intro hcontra
                  exact hp e0 he0 axis haxmem (hcontra ▸ pyIndex_get? dax axis hax)
                exact List.get?_set_ne _ _ hpos
              · rw [if_neg hax]
            split at hok
            · injection hok with h
              rw [← h]
              exact hwrite
            · rename_i ind hind
              split at hok
              · simp at hok
              · rename_i mp hmp
                injection hok with h
                rw [← h, maskDecision_indices]
                have hfr := mpFold_frame_indices hmp (p := p) ?_
                · rw [hfr]
                  exact hwrite
                · intro r hr
                  have : r.2.1 ∈ e0.axes := rows_axes_mem hr
                  exact hp e0 he0 r.2.1 this
      · -- N-d branch
        split at hok
        · simp at hok
        · rename_i kc0 hkc0
          split at hok
          · simp at hok
          · rename_i ind hind
            split at hok
            · simp at hok
            · rename_i mp hmp
              injection hok with h
              rw [← h, maskDecision_indices]
              have hfr := mpFold_frame_indices hmp (p := p) ?_
              · exact hfr
              · intro r hr
                have hsub : r.2.1 ∈ kc0.2.axes :=
                  transposedAxes_subset (rows_axes_mem hr)
                rw [haxes e0 he0 kc0 hkc0] at hsub
                exact hp e0 he0 r.2.1 hsub

theorem processGroup_mask_append {dom : DomainModel} {c e f : Bool} {dax : List AxisId}
    {gst gst' : GroupState} {grp : List AxisId × List Entry}
    (hok : processGroup dom c e f dax gst grp = .ok gst') :
    gst'.auxiliary_mask.take gst.auxiliary_mask.length = gst.auxiliary_mask ∧
    gst'.auxiliary_mask.length ≤ gst.auxiliary_mask.length + 1 := by
  have hmd : ∀ mp : MPState,
      gst' = maskDecision c gst mp →
      gst'.auxiliary_mask.take gst.auxiliary_mask.length = gst.auxiliary_mask ∧
      gst'.auxiliary_mask.length ≤ gst.auxiliary_mask.length + 1 := by
    intro mp hmd
    rw [hmd]
    unfold maskDecision
    split
    · constructor
      · exact List.take_left _ _
      · simp
    · constructor
      · exact List.take_length _
      · simp
  have hsame : gst' = gst →
      gst'.auxiliary_mask.take gst.auxiliary_mask.length = gst.auxiliary_mask ∧
      gst'.auxiliary_mask.length ≤ gst.auxiliary_mask.length + 1 := by
    intro h
    rw [h]
    exact ⟨List.take_length _, by simp⟩
  simp only [processGroup] at hok
  split at hok
  · simp at hok
  · split at hok
    · injection hok with h
      exact hsame h.symm
    · split at hok
      · split at hok
        · simp at hok
        · split at hok
          · simp at hok
          · split at hok
            · injection hok with h
              rw [← h]
              exact ⟨List.take_length _, by simp⟩
            · split at hok
              · simp at hok
              · injection hok with h
                exact hmd _ h.symm
      · split at hok
        · simp at hok
        · split at hok
          · simp at hok
          · split at hok
            · simp at hok
            · injection hok with h
              exact hmd _ h.symm

theorem groupsFold_frame {dom : DomainModel} {c e f : Bool} {dax : List AxisId} :
    ∀ {groups : List (List AxisId × List Entry)} {gst gst' : GroupState} {p : Nat},
    exFold (processGroup dom c e f dax) gst groups = .ok gst' →
    (∀ grp ∈ groups, (∀ en ∈ grp.2, ∀ kc, en.item = some kc → kc.2.axes = en.axes) ∧
      (∀ en ∈ grp.2, ∀ a ∈ en.axes, dax.get? p ≠ some a)) →
    gst'.indices.get? p = gst.indices.get? p := by
  intro groups
  induction groups with
  | nil =>
    intro gst gst' p hok _
    simp only [exFold] at hok
    injection hok with h
    rw [h]
  | cons grp rest ih =>
    intro gst gst' p hok hgr
    simp only [exFold] at hok
    cases hpg : processGroup dom c e f dax gst grp with
    | error err => rw [hpg] at hok; simp at hok
    | ok gst₁ =>
      rw [hpg] at hok
      have h₁ := processGroup_frame hpg (hgr grp (List.mem_cons_self _ _)).1
        (hgr grp (List.mem_cons_self _ _)).2
      have h₂ := ih hok (fun q hq => hgr q (List.mem_cons_of_mem _ hq))
      rw [h₂, h₁]

/-- C4.  The resolution call returns a plain tuple of per-axis indices
when no axis group required an auxiliary mask, and otherwise the tagged
tuple whose first element is the mask tag, whose second element is the
auxiliary-mask list, followed by the per-axis indices; each group
contributes at most one mask, appended at the end of the list, so the
final list holds the masks in group processing order. -/
theorem indices_C4_result_assembly (dom : DomainModel) (args : List (List String))
    (kwargs : List (Identity × Cond)) (mode dax : List String) (pst : ParseState)
    (gst : GroupState)
    (hpa : parseArgs args = .ok (mode, dax))
    (hpk : parseKwargs dom kwargs = .ok pst)
    (hnc : ¬ pst.unique_axes.length < pst.n_axes)
    (hfold : exFold (processGroup dom (modeFlags mode).1 (modeFlags mode).2.1
        (modeFlags mode).2.2 dax) ⟨List.replicate dax.length Index.full, []⟩ pst.parsed
      = .ok gst) :
    resolveIndices dom args kwargs =
      .ok (if gst.auxiliary_mask.isEmpty then
            ResolveResult.plain (parse_indices (dax.map (axisSize dom)) gst.indices)
          else
            ResolveResult.masked gst.auxiliary_mask
              (parse_indices (dax.map (axisSize dom)) gst.indices)) ∧
    (∀ (gst₀ gst₁ : GroupState) (grp : List AxisId × List Entry),
      processGroup dom (modeFlags mode).1 (modeFlags mode).2.1 (modeFlags mode).2.2
          dax gst₀ grp = .ok gst₁ →
      gst₁.auxiliary_mask.take gst₀.auxiliary_mask.length = gst₀.auxiliary_mask ∧
      gst₁.auxiliary_mask.length ≤ gst₀.auxiliary_mask.length + 1) := by
  constructor
  · simp only [resolveIndices, hpa, hpk]
    rw [if_neg hnc]
    rw [hfold]
    by_cases hmask : gst.auxiliary_mask.isEmpty <;> simp [hmask]
  · intro gst₀ gst₁ grp hpg
    exact processGroup_mask_append hpg

/-- C5.  Every axis of the array that no supplied condition addresses
keeps the unrestricted initial index, which the final normalisation pass
turns into the full slice over the whole axis. -/
theorem indices_C5_unmentioned_axes (dom : DomainModel) (args : List (List String))
    (kwargs : List (Identity × Cond)) (mode dax : List String) (r : ResolveResult)
    (p : Nat) (ax : AxisId)
    (hpa : parseArgs args = .ok (mode, dax))
    (hax : dax.get? p = some ax)
    (hfree : ∀ kv ∈ kwargs, ∀ axs it,
      resolveIdentity dom kv.1 = .ok (axs, it) → ax ∉ axs)
    (hok : resolveIndices dom args kwargs = .ok r) :
    (resultIxs r).get? p =
      some (Index.slice ⟨some 0, some ((axisSize dom ax : Nat) : Int), some 1⟩) := by
  simp only [resolveIndices, hpa] at hok
  cases hpk : parseKwargs dom kwargs with
  | error err => simp only [hpk] at hok; simp at hok
  | ok pst =>
    simp only [hpk] at hok
    by_cases hnc : pst.unique_axes.length < pst.n_axes
    · rw [if_pos hnc] at hok
      simp at hok
    · rw [if_neg hnc] at hok
      cases hfold : exFold (processGroup dom (modeFlags mode).1 (modeFlags mode).2.1
          (modeFlags mode).2.2 dax) ⟨List.replicate dax.length Index.full, []⟩
          pst.parsed with
      | error err => simp only [hfold] at hok; simp at hok
      | ok gst =>
        simp only [hfold] at hok
        have hplt : p < dax.length := by
          rcases List.get?_eq_some.1 hax with ⟨h, _⟩
          exact h
        have hgr : ∀ grp ∈ pst.parsed,
            (∀ en ∈ grp.2, ∀ kc, en.item = some kc → kc.2.axes = en.axes) ∧
            (∀ en ∈ grp.2, ∀ a ∈ en.axes, dax.get? p ≠ some a) := by
          intro grp hgrp
          have hent := parseKwargs_entries hpk grp hgrp
          constructor
          · intro en hen kc hkc
            rcases hent en hen with ⟨⟨kv, _, hres, _⟩, _⟩
            rw [hkc] at hres
            exact resolveIdentity_item_axes hres
          · intro en hen a hamem hcontra
            rw [hax] at hcontra
            injection hcontra with hcontra
            rcases hent en hen with ⟨⟨kv, hkv, hres, _⟩, _⟩
            exact hfree kv hkv en.axes en.item hres (hcontra ▸ hamem)
        have hfr := groupsFold_frame hfold hgr
        have hinit : (List.replicate dax.length Index.full).get? p = some Index.full :=
          get?_replicate_of_lt hplt
        have hslot : gst.indices.get? p = some Index.full := by
          rw [hfr]
          exact hinit
        have hshape : (dax.map (axisSize dom)).get? p = some (axisSize dom ax) := by
          rw [List.get?_map, hax]
          rfl
        have hzip : ((dax.map (axisSize dom)).zip gst.indices).get? p =
            some (axisSize dom ax, Index.full) := get?_zip_of hshape hslot
        have hix : (parse_indices (dax.map (axisSize dom)) gst.indices).get? p =
            some (Index.slice ⟨some 0, some ((axisSize dom ax : Nat) : Int), some 1⟩) := by
          unfold parse_indices
          rw [List.get?_map, hzip]
          simp [normalizeIndex_full]
        by_cases hmask : gst.auxiliary_mask.isEmpty
        · rw [if_pos hmask] at hok
          injection hok with h
          rw [← h]
          exact hix
        · rw [if_neg hmask] at hok
          injection hok with h
          rw [← h]
          exact hix

/-- Witness for C4: the envelope run with an explicit integer list on
the sample longitude requires one auxiliary mask, so the result is the
tagged tuple with that mask followed by the normalised per-axis
indices. -/
theorem indices_C4_witness :
    resolveIndices sampleDom [["envelope"], ["ax0", "ax1"]]
      [("lon", Cond.litList [1, 2, 4, 6])] =
      .ok (if ([(⟨[none, some 6], [[0, 1, 3, 5]], false⟩ : Mask)] : List Mask).isEmpty then
            ResolveResult.plain (parse_indices (["ax0", "ax1"].map (axisSize sampleDom))
              [Index.full, Index.slice ⟨some 1, some 7, none⟩])
          else
            ResolveResult.masked [⟨[none, some 6], [[0, 1, 3, 5]], false⟩]
              (parse_indices (["ax0", "ax1"].map (axisSize sampleDom))
                [Index.full, Index.slice ⟨some 1, some 7, none⟩])) := by
  have h := indices_C4_result_assembly sampleDom [["envelope"], ["ax0", "ax1"]]
    [("lon", Cond.litList [1, 2, 4, 6])] ["envelope"] ["ax0", "ax1"]
    { parsed := [(["ax1"], [⟨["ax1"], some (1, lonC), Cond.litList [1, 2, 4, 6]⟩])],
      unique_axes := ["ax1"], n_axes := 1 }
    ⟨[Index.full, Index.slice ⟨some 1, some 7, none⟩],
      [⟨[none, some 6], [[0, 1, 3, 5]], false⟩]⟩
    (by rfl) (by rfl) (by decide) (by rfl)
  exact h.1

/-- Witness for C5: with the only condition addressing `ax1`, the
unmentioned axis `ax0` of size 5 receives the full slice. -/
theorem indices_C5_witness :
    (resultIxs (ResolveResult.plain
      [Index.slice ⟨some 0, some 5, some 1⟩, Index.ints [2]])).get? 0 =
      some (Index.slice ⟨some 0, some ((axisSize sampleDom "ax0" : Nat) : Int), some 1⟩) := by
  refine indices_C5_unmentioned_axes sampleDom [[], ["ax0", "ax1"]]
    [("lon", Cond.litList [2])] [] ["ax0", "ax1"]
    (ResolveResult.plain [Index.slice ⟨some 0, some 5, some 1⟩, Index.ints [2]])
    0 "ax0" (by rfl) (by rfl) ?_ (by rfl)
  intro kv hkv axs it hres
  simp only [List.mem_singleton] at hkv
  subst hkv
  rw [show resolveIdentity sampleDom "lon" = .ok (["ax1"], some (1, lonC)) from rfl] at hres
  injection hres with hres
  injection hres with h1 h2
  rw [← h1]
  decide

/-- C9.  Calling the cyclicity setter raises NameError on its first
statement — `old = set([data_axes[i] for i in data.cyclic()])` reads the
names `data` and `data_axes`, neither of which is bound in the method's
scope — so no call (in particular a call with no identity) can return
the previously/currently cyclic axis set that the method's own docstring
promises. -/
theorem cyclic_C9_name_error (oldCyclic : List String) (identity : Option String) :
    cyclicModel cyclicScopeNames oldCyclic identity =
      .raised "NameError" "name data is not defined" := by
  rfl
